import Mathlib

set_option linter.unusedTactic false
set_option linter.unusedVariables false

/-!
# Verification of the bastors GOTO-elimination core and lexer

Shallow embedding of `src/bastors/goto_elimination.py`, the condition
algebra of `src/bastors/parse.py`, and the lexer `src/bastors/lex.py`.

Python statement lists are mutated in place and shared by reference, so
blocks of statements live in an explicit heap (`Heap`): a statement that
owns a nested block (`If`, `Loop`) stores a reference (`Ref`) into the
heap, and every in-place list operation of the source becomes a
read-modify-write of the heap.  Python exceptions (IndexError,
AttributeError, TypeError, ValueError, unbounded recursion) and fuel
exhaustion are all modelled as `Option.none`.

The AST follows the data model of the specification (§3.2–§3.4): the
revision of `parse.py` present under `src/` is an earlier one whose
namedtuples lack the `label` field and the `VariableCondition` /
`NotVariableCondition` / `TrueFalseCondition` variants, while
`goto_elimination.py`, `rustify.py` and the tests all construct and
consume the later AST.  Definitions modelled from the spec rather than
from a file under `src/` say so in their doc comment.
-/

/-- `ConditionEnum` of parse.py: the link of a condition in a list. -/
inductive Link where
  | initial
  | andL
  | orL
deriving DecidableEq, Repr

mutual
/-- Expressions (`parse.py` namedtuples; spec §3.3).  `arith` keeps an
optional left operand because the backend treats
`ArithmeticExpression(None, op, right)` as a unary expression. -/
inductive Expr where
  | num (n : Int)
  | strE (s : String)
  | varE (name : String)
  | arith (left : Option Expr) (op : String) (right : Expr)
  | boolean (conds : List Cond)
  | paren (e : Expr)

/-- Conditions (spec §3.4): `Condition` (a relation), `VariableCondition`,
`NotVariableCondition` and `TrueFalseCondition`. -/
inductive Cond where
  | rel (left : Expr) (op : String) (right : Expr) (link : Link)
  | varC (name : String) (link : Link)
  | notVarC (name : String) (link : Link)
  | tf (value : String) (link : Link)
end

deriving instance Repr for Expr, Cond

/-- A reference to a statement list stored in the heap. -/
abbrev Ref := Nat

/-- Statements (spec §3.2 plus goto_elimination.py's `Loop`/`Break`).
`tupleS` models the 1-tuple `(If(...),)` that `move_up_a_block` writes
into a block (`block[...] = (parse.If(...),)`, note the trailing comma). -/
inductive Stmt where
  | letS (label : Option Int) (lval : Expr) (rval : Expr)
  | ifS (label : Option Int) (conditions : List Cond) (body : Ref)
  | loopS (label : Option Int) (conditions : Option (List Cond)) (body : Ref)
  | gotoS (label : Option Int) (target : Int)
  | gosubS (label : Option Int) (target : Int)
  | returnS (label : Option Int)
  | printS (label : Option Int) (items : List Expr)
  | inputS (label : Option Int) (vars : List Expr)
  | endS (label : Option Int)
  | breakS (label : Option Int)
  | tupleS (inner : Stmt)
deriving Repr

/-- The store of statement lists.  A cell is a Python list object. -/
structure Heap where
  cells : List (List Stmt)
deriving Repr

/-- Dereference a list object. -/
def readH (h : Heap) (r : Ref) : Option (List Stmt) := h.cells[r]?

/-- Overwrite a list object in place. -/
def writeH (h : Heap) (r : Ref) (xs : List Stmt) : Heap :=
  ⟨h.cells.set r xs⟩

/-- Allocate a fresh list object. -/
def allocH (h : Heap) (xs : List Stmt) : Ref × Heap :=
  (h.cells.length, ⟨h.cells ++ [xs]⟩)

/-! ## Python list primitives

`pyGetI` etc. implement the exact semantics of CPython list indexing,
slicing, `insert` and `del` for possibly negative indices; failure is an
IndexError. -/

/-- `xs[i]` for a Python int index (negative indices count from the end). -/
def pyGetI {α : Type} (xs : List α) (i : Int) : Option α :=
  if i < 0 then
    if h : (i + xs.length).toNat < xs.length ∧ 0 ≤ i + xs.length then
      some (xs.get ⟨(i + xs.length).toNat, h.1⟩)
    else none
  else
    if h : i.toNat < xs.length then some (xs.get ⟨i.toNat, h⟩) else none

/-- `xs[i] = a`. -/
def pySetI {α : Type} (xs : List α) (i : Int) (a : α) : Option (List α) :=
  if i < 0 then
    if (i + xs.length).toNat < xs.length ∧ 0 ≤ i + xs.length then
      some (xs.set (i + xs.length).toNat a)
    else none
  else
    if i.toNat < xs.length then some (xs.set i.toNat a) else none

/-- `del xs[i]`. -/
def pyDelI {α : Type} (xs : List α) (i : Int) : Option (List α) :=
  if i < 0 then
    if (i + xs.length).toNat < xs.length ∧ 0 ≤ i + xs.length then
      some (xs.eraseIdx (i + xs.length).toNat)
    else none
  else
    if i.toNat < xs.length then some (xs.eraseIdx i.toNat) else none

/-- Normalise a Python slice bound to `[0, len]`. -/
def pySliceBound (len : Nat) (i : Int) : Nat :=
  if i < 0 then (max 0 (i + len)).toNat else min i.toNat len

/-- `xs[a:b]` (never fails). -/
def pySliceI {α : Type} (xs : List α) (a b : Int) : List α :=
  let a' := pySliceBound xs.length a
  let b' := pySliceBound xs.length b
  ((xs.drop a').take (b' - a'))

/-- `xs[a:]`. -/
def pySliceFrom {α : Type} (xs : List α) (a : Int) : List α :=
  xs.drop (pySliceBound xs.length a)

/-- `del xs[a:b]` (never fails). -/
def pyDelSliceI {α : Type} (xs : List α) (a b : Int) : List α :=
  let a' := pySliceBound xs.length a
  let b' := pySliceBound xs.length b
  xs.take a' ++ xs.drop (max a' b')

/-- `del xs[a:]`. -/
def pyDelSliceFrom {α : Type} (xs : List α) (a : Int) : List α :=
  xs.take (pySliceBound xs.length a)

/-- `xs.insert(i, a)`: the index is clamped, never an error. -/
def pyInsertI {α : Type} (xs : List α) (i : Int) (a : α) : List α :=
  (xs.take (pySliceBound xs.length i)) ++ a :: (xs.drop (pySliceBound xs.length i))

/-- `xs[:-1]`. -/
def pyDropLast {α : Type} (xs : List α) : List α := xs.dropLast

/-! ## `GotoLabelPair.__is_goto_before_label` and `classify`
(goto_elimination.py lines 21–33 and 96–154); pure functions of the two
paths. -/

/-- A goto/label pair: the two paths into one context's statement list
(spec §3.6).  The context's list reference is carried alongside. -/
structure Pair where
  gotoPath : List Int
  labelPath : List Int
deriving Repr, DecidableEq

/-- `GotoLabelPair.__is_goto_before_label`: walk the goto path; where the
label path is exhausted return `true`; at the first differing index
return `G[i] < L[i]`; if the goto path is exhausted first return
`false`. -/
def is_goto_before_label : List Int → List Int → Bool
  | [], _ => false
  | _ :: _, [] => true
  | g :: gs, l :: ls =>
    if g < l then true
    else if g > l then false
    else is_goto_before_label gs ls

/-- `GotoLabelPair.classify`: map a pair of paths to one of the 8 case
labels. -/
def classify (gotoPath labelPath : List Int) : String :=
  let before := is_goto_before_label gotoPath labelPath
  if gotoPath.length = labelPath.length ∧
      (gotoPath.length = 1 ∨ pyDropLast gotoPath = pyDropLast labelPath) then
    if before then "1.1" else "1.2"
  else if (labelPath.length : Int) - gotoPath.length ≥ 1 ∧
      pyDropLast (labelPath.take gotoPath.length) = pyDropLast gotoPath then
    if before then "2.1" else "2.2"
  else if (gotoPath.length : Int) - labelPath.length ≥ 1 ∧
      pyDropLast (gotoPath.take labelPath.length) = pyDropLast labelPath then
    if before then "3.1" else "3.2"
  else
    if before then "4.1" else "4.2"

/-! ## Condition inversion

Two embeddings.  `invert_conditions_src` is the function at
`src/bastors/parse.py` lines 42–69: it only understands relation
conditions (`Condition` namedtuples); on any other variant the attribute
access `cond.operator` raises, and when an operator misses the table the
variable `new_op` silently keeps the value of the previous iteration
(an UnboundLocalError on the first).  `invert_conditions` is the
four-variant inversion used by `goto_elimination.py` and `rustify.py`. -/

/-- Flip `AND`/`OR`, keep `INITIAL` (both revisions share this part). -/
def flip_link : Link → Link
  | .andL => .orL
  | .orL => .andL
  | .initial => .initial

/-- One pass over the table `{"<>": "=", "<=": ">", ">=": "<"}` checking
keys and values in insertion order with `break` on the first match;
`prev` is the value `new_op` retained from the previous loop iteration. -/
def invert_op_src (prev : Option String) (op : String) : Option String :=
  if op = "<>" then some "="
  else if op = "=" then some "<>"
  else if op = "<=" then some ">"
  else if op = ">" then some "<="
  else if op = ">=" then some "<"
  else if op = "<" then some ">="
  else prev

/-- Body of `invert_conditions` as in `src/bastors/parse.py`:
relation conditions only. -/
def invert_conditions_src_go (prev : Option String) : List Cond → Option (List Cond)
  | [] => some []
  | .rel l op r k :: rest =>
    match invert_op_src prev op with
    | none => none
    | some newOp =>
      match invert_conditions_src_go (some newOp) rest with
      | none => none
      | some tail => some (.rel l newOp r (flip_link k) :: tail)
  | _ :: _ => none

/-- `invert_conditions` of `src/bastors/parse.py` (lines 42–69). -/
def invert_conditions_src (conds : List Cond) : Option (List Cond) :=
  invert_conditions_src_go none conds

/-- Invert a relational operator (`=`↔`<>`, `<`↔`>=`, `>`↔`<=`). -/
def invert_op (op : String) : Option String :=
  if op = "<>" then some "="
  else if op = "=" then some "<>"
  else if op = "<=" then some ">"
  else if op = ">" then some "<="
  else if op = ">=" then some "<"
  else if op = "<" then some ">="
  else none

/-- Modelled from the spec: the four-variant `invert_conditions` that
`goto_elimination.py` and `rustify.py` rely on is declared in a revision
of `parse.py` that is not under `src/` (the file under `src/` is the
earlier relation-only revision).  Spec §3.4: invert the operator of a
`Relation`, swap `VariableCond`↔`NotVariableCond`, flip the value of a
`TrueFalseCond`, swap `AND`↔`OR` links and keep `INITIAL`. -/
def invert_condition : Cond → Option Cond
  | .rel l op r k => (invert_op op).map (fun o => .rel l o r (flip_link k))
  | .varC n k => some (.notVarC n (flip_link k))
  | .notVarC n k => some (.varC n (flip_link k))
  | .tf v k =>
    if v = "true" then some (.tf "false" (flip_link k))
    else if v = "false" then some (.tf "true" (flip_link k))
    else none

/-- Modelled from the spec: see `invert_condition`. -/
def invert_conditions : List Cond → Option (List Cond)
  | [] => some []
  | c :: rest =>
    match invert_condition c with
    | none => none
    | some c' =>
      match invert_conditions rest with
      | none => none
      | some rest' => some (c' :: rest')

/-! ## Attribute access

Python attribute lookups on statements; `none` is an AttributeError
(in particular on the `tupleS` artifact, which is a plain tuple). -/

/-- `stmt.label`. -/
def attr_label : Stmt → Option (Option Int)
  | .letS l _ _ => some l
  | .ifS l _ _ => some l
  | .loopS l _ _ => some l
  | .gotoS l _ => some l
  | .gosubS l _ => some l
  | .returnS l => some l
  | .printS l _ => some l
  | .inputS l _ => some l
  | .endS l => some l
  | .breakS l => some l
  | .tupleS _ => none

/-- `stmt.conditions`; for a `Loop` the attribute exists but its value
may be Python `None`. -/
def attr_conditions : Stmt → Option (Option (List Cond))
  | .ifS _ cs _ => some (some cs)
  | .loopS _ cs _ => some cs
  | _ => none

/-- `stmt.statements` (the nested block reference of an `If` or `Loop`). -/
def attr_statements : Stmt → Option Ref
  | .ifS _ _ b => some b
  | .loopS _ _ b => some b
  | _ => none

/-- `isinstance(s, (Loop, parse.If))`. -/
def isBlockStmt : Stmt → Bool
  | .ifS _ _ _ => true
  | .loopS _ _ _ => true
  | _ => false

/-- `isinstance(s, Loop)` (the spec's data model has no `For`, so the
`or isinstance(statement, parse.For)` disjunct of `__path_in_loop` is
vacuous here). -/
def isLoopStmt : Stmt → Bool
  | .loopS _ _ _ => true
  | _ => false

/-- `isinstance(s, parse.Goto)`. -/
def isGotoStmt : Stmt → Bool
  | .gotoS _ _ => true
  | _ => false

/-! ## `get_block` (goto_elimination.py lines 266–279)

Returns the list object (here: its reference) that the last index of the
path indexes into; the inner `some none` is the function's own `return
None`, the outer `none` an exception. -/

mutual
/-- The `for i, index in enumerate(path)` loop of `get_block`, started at
position `j`; on an `If`/`Loop` the source recurses with the *whole*
tail `path[1:]` regardless of `j`.  The fuel bounds the recursion depth
(in Python the recursion is bounded by the path length). -/
def get_block_go : Nat → Heap → Ref → List Int → Nat → Option (Option Ref)
  | 0, _, _, _, _ => none
  | F + 1, h, r, path, j =>
    if hj : j < path.length then
      if j = path.length - 1 then some (some r)
      else
        match readH h r with
        | none => none
        | some stmts =>
          match pyGetI stmts (path.get ⟨j, hj⟩) with
          | none => none
          | some s =>
            match s with
            | .ifS _ _ b => get_block F h b (path.drop 1)
            | .loopS _ _ b => get_block F h b (path.drop 1)
            | _ => get_block_go F h r path (j + 1)
    else some none

/-- `get_block(statements, path)`. -/
def get_block : Nat → Heap → Ref → List Int → Option (Option Ref)
  | 0, _, _, _ => none
  | F + 1, h, r, path => get_block_go F h r path 0
end

/-! ## `GotoLabelPair.__path_in_loop` (lines 35–52) -/

mutual
/-- The enumerate loop of `__path_in_loop` from position `j`. -/
def path_in_loop_go : Nat → Heap → Ref → List Int → Nat → Option Bool
  | 0, _, _, _, _ => none
  | F + 1, h, r, path, j =>
    if hj : j < path.length then
      match readH h r with
      | none => none
      | some stmts =>
        match pyGetI stmts (path.get ⟨j, hj⟩) with
        | none => none
        | some s =>
          if j = path.length - 2 then some (isLoopStmt s)
          else
            match s with
            | .ifS _ _ b => path_in_loop F h b (path.drop 1)
            | .loopS _ _ b => path_in_loop F h b (path.drop 1)
            | _ => path_in_loop_go F h r path (j + 1)
    else some false

/-- `__path_in_loop(statements, path)`: is the parent block of the
statement at `path` a loop? -/
def path_in_loop : Nat → Heap → Ref → List Int → Option Bool
  | 0, _, _, _ => none
  | F + 1, h, r, path =>
    if path.length ≤ 1 then some false
    else path_in_loop_go F h r path 0
end

/-! ## Temporary variables (`get_temp_name`, lines 282–286)

`TEMP_VAR_NUM` is the module global; `generated` is a ghost log of every
name `get_temp_name` has returned since the counter was last reset (most
recent first) — it is written nowhere else, so it records exactly the
temporaries introduced. -/

/-- Little-endian decimal digits of `n`; the fuel makes the recursion
structural (`fuel = n` is always enough since `n / 10 < n`). -/
def decDigitsAux : Nat → Nat → List Nat
  | 0, _ => []
  | _ + 1, 0 => []
  | f + 1, n + 1 => ((n + 1) % 10) :: decDigitsAux f ((n + 1) / 10)

/-- Decimal rendering of `"%d" % n`. -/
def decRepr (n : Nat) : String :=
  if n = 0 then "0"
  else String.mk (((decDigitsAux n n).reverse).map (fun d => Char.ofNat (48 + d)))

/-- The name `"t%d" % n`. -/
def temp_name (n : Nat) : String := "t" ++ decRepr n

/-- The process-wide state: `TEMP_VAR_NUM` plus the ghost log. -/
structure St where
  tempNum : Nat
  generated : List String
deriving Repr, DecidableEq

/-- `get_temp_name()`: increment the counter and return `"t%d"` of it. -/
def get_temp_name (st : St) : String × St :=
  let n := st.tempNum + 1
  (temp_name n, ⟨n, temp_name n :: st.generated⟩)

/-! ## Python `==` on the AST

Namedtuples compare as plain tuples: the class is ignored, fields are
compared pairwise, and list-valued fields compare by deep value through
the heap.  `PyVal` is the tuple skeleton of a value; `enumC` stands for
a `ConditionEnum` member (equal only to itself). -/

inductive PyVal where
  | noneV
  | intV (n : Int)
  | strV (s : String)
  | enumC (n : Nat)
  | tup (vs : List PyVal)
  | listV (vs : List PyVal)

mutual
def pyValBeq : PyVal → PyVal → Bool
  | .noneV, .noneV => true
  | .intV a, .intV b => a == b
  | .strV a, .strV b => a == b
  | .enumC a, .enumC b => a == b
  | .tup a, .tup b => pyValListBeq a b
  | .listV a, .listV b => pyValListBeq a b
  | _, _ => false

def pyValListBeq : List PyVal → List PyVal → Bool
  | [], [] => true
  | a :: as', b :: bs' => pyValBeq a b && pyValListBeq as' bs'
  | _, _ => false
end

def encLink : Link → PyVal
  | .initial => .enumC 0
  | .andL => .enumC 1
  | .orL => .enumC 2

def encOptInt : Option Int → PyVal
  | none => .noneV
  | some n => .intV n

mutual
/-- Tuple skeleton of an expression. -/
def encExpr : Expr → PyVal
  | .num n => .intV n
  | .strE s => .strV s
  | .varE n => .tup [.strV n]
  | .arith l op r =>
    .tup [(match l with | none => .noneV | some e => encExpr e), .strV op, encExpr r]
  | .boolean cs => .tup [.listV (encCondList cs)]
  | .paren e => .tup [encExpr e]

/-- Tuple skeleton of a condition.  `VariableCondition`,
`NotVariableCondition` and `TrueFalseCondition` are all 2-field
namedtuples, so they are mutually `==` when the fields agree. -/
def encCond : Cond → PyVal
  | .rel l op r k => .tup [encExpr l, .strV op, encExpr r, encLink k]
  | .varC n k => .tup [.strV n, encLink k]
  | .notVarC n k => .tup [.strV n, encLink k]
  | .tf v k => .tup [.strV v, encLink k]

def encExprList : List Expr → List PyVal
  | [] => []
  | e :: es => encExpr e :: encExprList es

def encCondList : List Cond → List PyVal
  | [] => []
  | c :: cs => encCond c :: encCondList cs
end

mutual
/-- Tuple skeleton of a statement, dereferencing nested blocks through
the heap; `fuel` bounds the recursion (a cyclic object graph is a
RecursionError).  `Goto`/`Gosub` are both `(label, target)` 2-tuples,
`Return`/`End`/`Break` are `(label,)` 1-tuples, `If` and `Loop` are both
`(label, conditions, statements)` 3-tuples, so cross-class `==` holds
exactly when the fields agree, as in Python. -/
def encStmt (fuel : Nat) (h : Heap) : Stmt → Option PyVal
  | .letS l lv rv => some (.tup [encOptInt l, encExpr lv, encExpr rv])
  | .ifS l cs b =>
    match encBlock fuel h b with
    | none => none
    | some bv => some (.tup [encOptInt l, .listV (encCondList cs), bv])
  | .loopS l cs b =>
    match encBlock fuel h b with
    | none => none
    | some bv =>
      some (.tup [encOptInt l,
        (match cs with | none => .noneV | some cs' => .listV (encCondList cs')), bv])
  | .gotoS l t => some (.tup [encOptInt l, .intV t])
  | .gosubS l t => some (.tup [encOptInt l, .intV t])
  | .returnS l => some (.tup [encOptInt l])
  | .printS l items => some (.tup [encOptInt l, .listV (encExprList items)])
  | .inputS l vars => some (.tup [encOptInt l, .listV (encExprList vars)])
  | .endS l => some (.tup [encOptInt l])
  | .breakS l => some (.tup [encOptInt l])
  | .tupleS inner =>
    match encStmt fuel h inner with
    | none => none
    | some v => some (.tup [v])

def encBlock (fuel : Nat) (h : Heap) (r : Ref) : Option PyVal :=
  match fuel with
  | 0 => none
  | fuel' + 1 =>
    match readH h r with
    | none => none
    | some stmts =>
      match encStmtList fuel' h stmts with
      | none => none
      | some vs => some (.listV vs)

def encStmtList (fuel : Nat) (h : Heap) : List Stmt → Option (List PyVal)
  | [] => some []
  | s :: rest =>
    match encStmt fuel h s with
    | none => none
    | some v =>
      match encStmtList fuel h rest with
      | none => none
      | some vs => some (v :: vs)
end

/-- Python `x == y` on two statements (deep, through the heap). -/
def pyEqStmt (fuel : Nat) (h : Heap) (x y : Stmt) : Option Bool :=
  match encStmt fuel h x, encStmt fuel h y with
  | some a, some b => some (pyValBeq a b)
  | _, _ => none

/-- `xs.index(x)`: position of the first element `==` to `x`;
a ValueError (no match) is also `none`, like the other exceptions. -/
def pyIndexOf (fuel : Nat) (h : Heap) (xs : List Stmt) (x : Stmt) : Option Nat :=
  match xs with
  | [] => none
  | y :: rest =>
    match pyEqStmt fuel h x y with
    | none => none
    | some true => some 0
    | some false =>
      match pyIndexOf fuel h rest x with
      | none => none
      | some i => some (i + 1)

/-- `xs[i] += 1` on a path. -/
def pyIncAt (xs : List Int) (i : Int) : Option (List Int) :=
  match pyGetI xs i with
  | none => none
  | some v => pySetI xs i (v + 1)

/-! ## `GotoLabelPair.goto_temp_var` (lines 62–94) -/

/-- Introduce a fresh boolean temporary holding the goto's condition list
and make the conditional goto test just that variable; if the condition
is already a single `VariableCondition`, return its name. -/
def goto_temp_var (F : Nat) (h : Heap) (r : Ref) (p : Pair) (st : St) :
    Option (Heap × Pair × St × String) :=
  match get_block F h r p.gotoPath with
  | none => none
  | some none => none
  | some (some B) =>
    match readH h B with
    | none => none
    | some bl =>
      match pyGetI p.gotoPath (-1) with
      | none => none
      | some gIdx =>
        match pyGetI bl gIdx with
        | none => none
        | some goto_stmt =>
          match attr_conditions goto_stmt with
          | none => none
          | some none => none
          | some (some conds) =>
            match conds with
            | [] => none
            | [Cond.varC v _] => some (h, p, st, v)
            | _ =>
              let nameSt := get_temp_name st
              let temp_var :=
                Stmt.letS none (Expr.varE nameSt.1) (Expr.boolean conds)
              match attr_label goto_stmt, attr_statements goto_stmt with
              | some lab, some body =>
                let bl1 := pyInsertI bl gIdx temp_var
                match pySetI p.gotoPath (-1) (gIdx + 1) with
                | none => none
                | some gp1 =>
                  let newIf :=
                    Stmt.ifS lab [Cond.varC nameSt.1 Link.initial] body
                  match
                    (if gp1.length ≤ p.labelPath.length then
                      match pyGetI gp1 (-1),
                          pyGetI p.labelPath ((gp1.length : Int) - 1) with
                      | some gl, some ll =>
                        if gl < ll then
                          pyIncAt p.labelPath ((gp1.length : Int) - 1)
                        else some p.labelPath
                      | _, _ => none
                    else some p.labelPath) with
                  | none => none
                  | some lp1 =>
                    match pyGetI gp1 (-1) with
                    | none => none
                    | some gIdx2 =>
                      match pySetI bl1 gIdx2 newIf with
                      | none => none
                      | some bl2 =>
                        some (writeH h B bl2, ⟨gp1, lp1⟩, nameSt.2, nameSt.1)
              | _, _ => none

/-! ## Case 1.1 (`algo_1_1_same_level_same_block__before`, lines 289–313) -/

/-- Replace the goto with an `If` on the inverted condition whose body is
the statements strictly between goto and label, deleting them from the
block; with nothing in between just delete the goto. -/
def algo_1_1_same_level_same_block__before (F : Nat) (h : Heap) (r : Ref)
    (p : Pair) : Option Heap :=
  match get_block F h r p.gotoPath with
  | none => none
  | some none => none
  | some (some B) =>
    match readH h B with
    | none => none
    | some bl =>
      match pyGetI p.gotoPath (-1) with
      | none => none
      | some g =>
        match pyGetI bl g with
        | none => none
        | some goto_stmt =>
          match pyGetI p.labelPath (-1) with
          | none => none
          | some l =>
            let between := pySliceI bl (g + 1) l
            if 0 < between.length then
              match attr_label goto_stmt, attr_conditions goto_stmt with
              | some lab, some (some cs) =>
                match invert_conditions cs with
                | none => none
                | some ics =>
                  let alloc := allocH h between
                  match pySetI bl g (Stmt.ifS lab ics alloc.1) with
                  | none => none
                  | some bl1 =>
                    some (writeH alloc.2 B (pyDelSliceI bl1 (g + 1) l))
              | _, _ => none
            else
              match pyDelI bl g with
              | none => none
              | some bl1 => some (writeH h B bl1)

/-! ## Case 1.2 (`algo_1_2_same_level_same_block__after`, lines 316–343) -/

/-- Replace the label statement with a `Loop` on the goto's conditions
whose body is the span from the label (inclusive) to the goto
(exclusive), delete the rest of the span and the goto, and update the
pair's paths. -/
def algo_1_2_same_level_same_block__after (F : Nat) (h : Heap) (r : Ref)
    (p : Pair) : Option (Heap × Pair) :=
  match get_block F h r p.gotoPath with
  | none => none
  | some none => none
  | some (some B) =>
    match readH h B with
    | none => none
    | some bl =>
      match pyGetI p.gotoPath (-1) with
      | none => none
      | some g =>
        match pyGetI bl g with
        | none => none
        | some goto_stmt =>
          match pyGetI p.labelPath (-1) with
          | none => none
          | some l =>
            match attr_conditions goto_stmt with
            | none => none
            | some condsPy =>
              let span := pySliceI bl l g
              let alloc := allocH h span
              let loop_stmt := Stmt.loopS none condsPy alloc.1
              match pySetI bl l loop_stmt with
              | none => none
              | some bl1 =>
                let bl2 := pyDelSliceI bl1 (l + 1) (g + 1)
                let h2 := writeH alloc.2 B bl2
                let again := pySliceI bl2 l g
                match pySetI p.gotoPath (-1) (g - (again.length + 1)) with
                | none => none
                | some gp1 =>
                  match pyIncAt p.labelPath (-1) with
                  | none => none
                  | some lp1 => some (h2, ⟨gp1, lp1⟩)

/-! ## Locators (`convert_to_conditional`, `find_goto`, `find_label`,
`find_pair`; lines 682–785)

`find_goto` wraps a bare `Goto` in place (unless it is the sole
statement of its list) and returns the path to it; recursion depth is
bounded by the fuel (Python's recursion limit). -/

/-- `convert_to_conditional(goto, label, index, statements)`:
`statements[index] = If(label, [TrueFalseCondition("true", INITIAL)], [goto])`. -/
def convert_to_conditional (h : Heap) (goto : Stmt) (label : Option Int)
    (index : Nat) (stmts : List Stmt) : List Stmt × Heap :=
  let alloc := allocH h [goto]
  (stmts.set index (Stmt.ifS label [Cond.tf "true" Link.initial] alloc.1),
    alloc.2)

/-- Result of `find_goto`: either no goto anywhere, or the path to the
first one, its target label, and the heap after the in-place wrap. -/
inductive FindRes where
  | nofind
  | found (path : List Int) (target : Int) (h : Heap)

mutual
/-- `find_goto(statements, path)` on the list object `r`; the fuel
bounds the traversal (Python's recursion limit). -/
def find_goto : Nat → Heap → Ref → Option FindRes
  | 0, _, _ => none
  | F + 1, h, r =>
    match readH h r with
    | none => none
    | some stmts => find_goto_go F h r stmts stmts 0

/-- The `for index, statement in enumerate(statements)` loop of
`find_goto`. -/
def find_goto_go : Nat → Heap → Ref → List Stmt → List Stmt → Nat →
    Option FindRes
  | 0, _, _, _, _, _ => none
  | _ + 1, _, h, _, [], _ => some .nofind
  | F + 1, h, r, full, s :: rest, i =>
    match s with
    | .gotoS lab tgt =>
      if full.length ≠ 1 then
        let cv := convert_to_conditional h s lab i full
        some (.found [(i : Int)] tgt (writeH cv.2 r cv.1))
      else some (.found [] tgt h)
    | .loopS _ _ b =>
      match find_goto F h b with
      | none => none
      | some (.found pth t h') => some (.found ((i : Int) :: pth) t h')
      | some .nofind => find_goto_go F h r full rest (i + 1)
    | .ifS _ _ b =>
      match find_goto F h b with
      | none => none
      | some (.found pth t h') => some (.found ((i : Int) :: pth) t h')
      | some .nofind => find_goto_go F h r full rest (i + 1)
    | _ => find_goto_go F h r full rest (i + 1)
end

/-- Python `==` between a goto target and a statement label
(`None == None` is `True`, `int == None` is `False`). -/
def optIntEq : Option Int → Option Int → Bool
  | none, none => true
  | some a, some b => a == b
  | _, _ => false

mutual
/-- `find_label(target, statements, path)`; `some none` is "not found",
`some (some path)` the found path; `none` an exception (the tuple
artifact has no `label` attribute). -/
def find_label : Nat → Heap → Ref → Option Int → Option (Option (List Int))
  | 0, _, _, _ => none
  | F + 1, h, r, target =>
    match readH h r with
    | none => none
    | some stmts => find_label_go F h r target stmts 0

/-- The enumerate loop of `find_label`. -/
def find_label_go : Nat → Heap → Ref → Option Int → List Stmt → Nat →
    Option (Option (List Int))
  | 0, _, _, _, _, _ => none
  | _ + 1, _, _, _, [], _ => some none
  | F + 1, h, r, target, s :: rest, i =>
    match attr_label s with
    | none => none
    | some lab =>
      if optIntEq target lab then some (some [(i : Int)])
      else
        match s with
        | .loopS _ _ b =>
          match find_label F h b target with
          | none => none
          | some (some pth) => some (some ((i : Int) :: pth))
          | some none => find_label_go F h r target rest (i + 1)
        | .ifS _ _ b =>
          match find_label F h b target with
          | none => none
          | some (some pth) => some (some ((i : Int) :: pth))
          | some none => find_label_go F h r target rest (i + 1)
        | _ => find_label_go F h r target rest (i + 1)
end

/-- Result of `find_pair`. -/
inductive PairRes where
  | nofind
  | found (h : Heap) (p : Pair)

/-- `find_pair(statements)` (lines 756–785): locate the first goto and
its label; a missing label is the `raise Exception(...)` of the source. -/
def find_pair (F : Nat) (h : Heap) (r : Ref) : Option PairRes :=
  match find_goto F h r with
  | none => none
  | some .nofind => some .nofind
  | some (.found gpath tgt h1) =>
    match find_label F h1 r (some tgt) with
    | none => none
    | some none => none
    | some (some lpath) => some (.found h1 ⟨gpath, lpath⟩)

/-- `cond.var` (only the two variable-condition namedtuples have it). -/
def attr_var : Cond → Option String
  | .varC v _ => some v
  | .notVarC v _ => some v
  | _ => none

/-! ## Case 2.1 (`algo_2_1__goto_in_parent_block__before`, lines 346–462) -/

/-- The `while True` of case 2.1: push the conditional goto down one
child block per iteration until goto and label share a block (or the
child holding the label is a loop).  Returns the final `label_block`. -/
def algo_2_1_loop (F : Nat) (fuel : Nat) (h : Heap) (r : Ref) (p : Pair)
    (temp : String) : Option (Heap × Pair × Stmt) :=
  match fuel with
  | 0 => none
  | fuel' + 1 =>
    let path_index : Int := (p.gotoPath.length : Int) - 1
    match get_block F h r p.gotoPath with
    | none => none
    | some none => none
    | some (some B) =>
    match readH h B with
    | none => none
    | some bl =>
    match pyGetI p.labelPath path_index with
    | none => none
    | some lbi =>
    match pyGetI bl lbi with
    | none => none
    | some stmt =>
    match stmt with
    | .loopS _ _ _ => some (h, p, stmt)
    | .ifS slab scs sbody =>
      let new_if := Stmt.ifS slab (scs ++ [Cond.varC temp Link.orL]) sbody
      match pyIndexOf F h bl stmt with
      | none => none
      | some i0 =>
        let h1 := writeH h B (bl.set i0 new_if)
        match readH h1 B with
        | none => none
        | some bl2 =>
        match pyGetI p.gotoPath (-1) with
        | none => none
        | some g =>
        let stmts3 := pySliceI bl2 (g + 1) lbi
        match
          (if 0 < stmts3.length then
            let bl3 := pyDelSliceI bl2 (g + 1) lbi
            match invert_conditions [Cond.varC temp Link.initial] with
            | none => none
            | some ics =>
              let alloc := allocH h1 stmts3
              some (writeH alloc.2 B
                (pyInsertI bl3 (g + 1) (Stmt.ifS none ics alloc.1)))
          else some h1) with
        | none => none
        | some h2 =>
        match readH h2 B with
        | none => none
        | some bl4 =>
        match pyIndexOf F h2 bl4 new_if with
        | none => none
        | some idx2 =>
        match pyGetI p.gotoPath path_index with
        | none => none
        | some gpi =>
        match pyGetI bl4 gpi with
        | none => none
        | some theGoto =>
        match readH h2 sbody with
        | none => none
        | some bodyL =>
        let h3 := writeH h2 sbody (pyInsertI bodyL 0 theGoto)
        match readH h3 B with
        | none => none
        | some bl5 =>
        match pyDelI bl5 gpi with
        | none => none
        | some bl6 =>
        let h4 := writeH h3 B bl6
        let lbi2 : Int := (idx2 : Int) - 1
        match pySetI p.labelPath path_index lbi2 with
        | none => none
        | some lp1 =>
        match pyDelI p.gotoPath (-1) with
        | none => none
        | some gp1 =>
        let gp2 := gp1 ++ [lbi2, 0]
        match pyIncAt lp1 ((gp2.length : Int) - 1) with
        | none => none
        | some lp2 =>
          if pyDropLast lp2 = pyDropLast gp2 then some (h4, ⟨gp2, lp2⟩, new_if)
          else algo_2_1_loop F fuel' h4 r ⟨gp2, lp2⟩ temp
    | _ => none

/-- Case 2.1: goto in a parent block of the label's block, goto first.
The trailing `| _ => none` of the loop is `block.index(None)` raising
ValueError when the child is neither `Loop` nor `If`. -/
def algo_2_1__goto_in_parent_block__before (F : Nat) (h : Heap) (r : Ref)
    (p : Pair) (st : St) : Option (Heap × Pair × St) :=
  match goto_temp_var F h r p st with
  | none => none
  | some (h1, p1, st1, temp) =>
    match algo_2_1_loop F F h1 r p1 temp with
    | none => none
    | some (h2, p2, label_block) =>
      match get_block F h2 r p2.labelPath with
      | none => none
      | some none => none
      | some (some B6) =>
      match readH h2 B6 with
      | none => none
      | some bl6 =>
      match pyGetI p2.labelPath (-1) with
      | none => none
      | some li =>
      match pyGetI bl6 li with
      | none => none
      | some label_stmt =>
      match algo_1_1_same_level_same_block__before F h2 r p2 with
      | none => none
      | some h3 =>
        match label_block with
        | .loopS _ _ lbody =>
          let temp_var := Stmt.letS none (Expr.varE temp)
            (Expr.boolean [Cond.tf "false" Link.initial])
          match attr_label label_stmt with
          | none => none
          | some lab =>
            match find_label F h3 r lab with
            | none => none
            | some lpRes =>
              let lpath := match lpRes with
                | some pth => pth
                | none => ([] : List Int)
              match get_block F h3 r (pyDropLast lpath) with
              | none => none
              | some _ =>
                match pyGetI (pySliceI lpath 0 1) (-1) with
                | none => none
                | some li2 =>
                  match readH h3 lbody with
                  | none => none
                  | some bodyL =>
                    some (writeH h3 lbody (pyInsertI bodyL li2 temp_var),
                      p2, st1)
        | _ => some (h3, p2, st1)

/-! ## Case 2.2 (`algo_2_2__goto_in_parent_block__after`, lines 465–503) -/

/-- Case 2.2: wrap the label's parent block up to the goto in a loop on
the temporary and move the goto to the front of that loop. -/
def algo_2_2__goto_in_parent_block__after (F : Nat) (h : Heap) (r : Ref)
    (p : Pair) (st : St) : Option (Heap × Pair × St) :=
  match goto_temp_var F h r p st with
  | none => none
  | some (h1, p1, st1, temp) =>
    match get_block F h1 r p1.gotoPath with
    | none => none
    | some none => none
    | some (some B) =>
    match readH h1 B with
    | none => none
    | some bl =>
    match pyGetI p1.gotoPath (-1) with
    | none => none
    | some g =>
    match pyGetI bl g with
    | none => none
    | some goto_stmt =>
    match pyGetI p1.labelPath ((p1.gotoPath.length : Int) - 1) with
    | none => none
    | some lbi =>
    let stmts := pySliceI bl lbi g
    let bl1 := pyDelSliceI bl lbi g
    let alloc := allocH h1 stmts
    let loop_stmt :=
      Stmt.loopS none (some [Cond.varC temp Link.initial]) alloc.1
    let h2 := writeH alloc.2 B (pyInsertI bl1 lbi loop_stmt)
    match readH h2 B with
    | none => none
    | some bl3 =>
    match pyIndexOf F h2 bl3 goto_stmt with
    | none => none
    | some ngi =>
    let h3 := writeH h2 B (bl3.eraseIdx ngi)
    match readH h3 alloc.1 with
    | none => none
    | some sl =>
      some (writeH h3 alloc.1 (pyInsertI sl 0 goto_stmt), p1, st1)

/-! ## `move_up_a_block` (lines 506–553) -/

/-- Move the conditional goto one block up: in a loop, leave a
conditional `break` behind (as the 1-tuple `(If(...),)` the source
actually writes); otherwise wrap the trailing statements in an `If` on
the inverted temporary.  Then re-insert the goto after the current block
in the parent. -/
def move_up_a_block (F : Nat) (h : Heap) (r : Ref) (p : Pair) (temp : String)
    (is_after : Bool) : Option (Heap × Pair) :=
  match get_block F h r p.gotoPath with
  | none => none
  | some none => none
  | some (some B) =>
  match readH h B with
  | none => none
  | some bl =>
  match pyGetI p.gotoPath (-1) with
  | none => none
  | some g =>
  match pyGetI bl g with
  | none => none
  | some goto_stmt =>
  match path_in_loop F h r p.gotoPath with
  | none => none
  | some gil =>
  match
    (if gil then
      let alloc := allocH h [Stmt.breakS none]
      match pySetI bl g
          (Stmt.tupleS (Stmt.ifS none [Cond.varC temp Link.initial] alloc.1)) with
      | none => none
      | some bl1 => some (writeH alloc.2 B bl1)
    else
      let stmts := pySliceFrom bl (g + 1)
      if 0 < stmts.length then
        let bl1 := pyDelSliceFrom bl (g + 1)
        match invert_conditions [Cond.varC temp Link.initial] with
        | none => none
        | some ics =>
          let alloc := allocH h stmts
          match pySetI bl1 g (Stmt.ifS none ics alloc.1) with
          | none => none
          | some bl2 => some (writeH alloc.2 B bl2)
      else
        match pyDelI bl g with
        | none => none
        | some bl1 => some (writeH h B bl1)) with
  | none => none
  | some h1 =>
  let gp1 := pyDropLast p.gotoPath
  match pyIncAt gp1 (-1) with
  | none => none
  | some gp2 =>
  match get_block F h1 r gp2 with
  | none => none
  | some none => none
  | some (some NB) =>
  match readH h1 NB with
  | none => none
  | some nbl =>
  match pyGetI gp2 (-1) with
  | none => none
  | some gl =>
  let h2 := writeH h1 NB (pyInsertI nbl gl goto_stmt)
  match
    (if !is_after ∧ gp2.length ≤ p.labelPath.length then
      pyIncAt p.labelPath ((gp2.length : Int) - 1)
    else some p.labelPath) with
  | none => none
  | some lp1 => some (h2, ⟨gp2, lp1⟩)

/-! ## Cases 3.x and 4.x (lines 556–679) -/

/-- The common loop of `algo_3`: move the goto up until the pair shares
a block. -/
def algo_3_loop (F : Nat) (fuel : Nat) (h : Heap) (r : Ref) (p : Pair)
    (temp : String) (is_after : Bool) : Option (Heap × Pair) :=
  match fuel with
  | 0 => none
  | fuel' + 1 =>
    match move_up_a_block F h r p temp is_after with
    | none => none
    | some (h1, p1) =>
      if pyDropLast p1.labelPath = pyDropLast p1.gotoPath then some (h1, p1)
      else algo_3_loop F fuel' h1 r p1 temp is_after

/-- `algo_3`: normalise the goto, then ascend. -/
def algo_3 (F : Nat) (h : Heap) (r : Ref) (p : Pair) (st : St)
    (is_after : Bool) : Option (Heap × Pair × St) :=
  match goto_temp_var F h r p st with
  | none => none
  | some (h1, p1, st1, temp) =>
    match algo_3_loop F F h1 r p1 temp is_after with
    | none => none
    | some (h2, p2) => some (h2, p2, st1)

/-- Case 3.1: run the common part then case 1.1. -/
def algo_3_1__label_in_parent_block__before (F : Nat) (h : Heap) (r : Ref)
    (p : Pair) (st : St) : Option (Heap × St) :=
  match algo_3 F h r p st false with
  | none => none
  | some (h1, p1, st1) =>
    match algo_1_1_same_level_same_block__before F h1 r p1 with
    | none => none
    | some h2 => some (h2, st1)

/-- Case 3.2: run the common part, case 1.2, then re-initialise the
temporary before the label when the label sits in a loop. -/
def algo_3_2__label_in_parent_block__after (F : Nat) (h : Heap) (r : Ref)
    (p : Pair) (st : St) : Option (Heap × Pair × St) :=
  match algo_3 F h r p st true with
  | none => none
  | some (h1, p1, st1) =>
    let path_index : Int := (p1.gotoPath.length : Int) - 1
    match get_block F h1 r p1.gotoPath with
    | none => none
    | some none => none
    | some (some B) =>
    match readH h1 B with
    | none => none
    | some bl =>
    match pyGetI p1.gotoPath path_index with
    | none => none
    | some gpi =>
    match pyGetI bl gpi with
    | none => none
    | some goto_stmt =>
    match attr_conditions goto_stmt with
    | none => none
    | some goto_condsPy =>
    match algo_1_2_same_level_same_block__after F h1 r p1 with
    | none => none
    | some (h2, p2) =>
      match path_in_loop F h2 r p2.labelPath with
      | none => none
      | some lil =>
        if lil then
          match goto_condsPy with
          | some (c0 :: _) =>
            match attr_var c0 with
            | none => none
            | some v =>
              let let_stmt := Stmt.letS none (Expr.varE v)
                (Expr.boolean [Cond.tf "false" Link.initial])
              match get_block F h2 r p2.labelPath with
              | none => none
              | some none => none
              | some (some B2) =>
              match readH h2 B2 with
              | none => none
              | some bl2 =>
              match pyGetI p2.labelPath (-1) with
              | none => none
              | some li =>
                some (writeH h2 B2 (pyInsertI bl2 li let_stmt), p2, st1)
          | _ => none
        else some (h2, p2, st1)

/-- The common loop of `algo_4`: move the goto up until the pair
classifies as a 2.x case. -/
def algo_4_loop (F : Nat) (fuel : Nat) (h : Heap) (r : Ref) (p : Pair)
    (temp : String) (is_after : Bool) : Option (Heap × Pair) :=
  match fuel with
  | 0 => none
  | fuel' + 1 =>
    match move_up_a_block F h r p temp is_after with
    | none => none
    | some (h1, p1) =>
      if (classify p1.gotoPath p1.labelPath).startsWith "2." then some (h1, p1)
      else algo_4_loop F fuel' h1 r p1 temp is_after

/-- `algo_4`: normalise the goto, then ascend until a 2.x case. -/
def algo_4 (F : Nat) (h : Heap) (r : Ref) (p : Pair) (st : St)
    (is_after : Bool) : Option (Heap × Pair × St) :=
  match goto_temp_var F h r p st with
  | none => none
  | some (h1, p1, st1, temp) =>
    match algo_4_loop F F h1 r p1 temp is_after with
    | none => none
    | some (h2, p2) => some (h2, p2, st1)

/-- Case 4.1: common part then case 2.1. -/
def algo_4_1__label_in_disjunct__before (F : Nat) (h : Heap) (r : Ref)
    (p : Pair) (st : St) : Option (Heap × Pair × St) :=
  match algo_4 F h r p st false with
  | none => none
  | some (h1, p1, st1) =>
    algo_2_1__goto_in_parent_block__before F h1 r p1 st1

/-- Case 4.2: common part then case 2.2. -/
def algo_4_2__label_in_disjunct__after (F : Nat) (h : Heap) (r : Ref)
    (p : Pair) (st : St) : Option (Heap × Pair × St) :=
  match algo_4 F h r p st true with
  | none => none
  | some (h1, p1, st1) =>
    algo_2_2__goto_in_parent_block__after F h1 r p1 st1

/-! ## Driver (`eliminate_goto`, lines 168–251) -/

/-- Is a classification one of the eight dispatched cases?  The driver
raises `GotoEliminationError("Unsupported GOTO case")` otherwise. -/
def known_case (c : String) : Bool :=
  c = "1.1" ∨ c = "1.2" ∨ c = "2.1" ∨ c = "2.2" ∨
  c = "3.1" ∨ c = "3.2" ∨ c = "4.1" ∨ c = "4.2"

/-- Dispatch one classified pair to its case algorithm; the final `none`
is the `raise GotoEliminationError` branch. -/
def dispatch_case (F : Nat) (c : String) (h : Heap) (r : Ref) (p : Pair)
    (st : St) : Option (Heap × St) :=
  if c = "1.1" then
    (algo_1_1_same_level_same_block__before F h r p).map (fun h' => (h', st))
  else if c = "1.2" then
    (algo_1_2_same_level_same_block__after F h r p).map (fun x => (x.1, st))
  else if c = "2.1" then
    (algo_2_1__goto_in_parent_block__before F h r p st).map
      (fun x => (x.1, x.2.2))
  else if c = "2.2" then
    (algo_2_2__goto_in_parent_block__after F h r p st).map
      (fun x => (x.1, x.2.2))
  else if c = "3.1" then
    algo_3_1__label_in_parent_block__before F h r p st
  else if c = "3.2" then
    (algo_3_2__label_in_parent_block__after F h r p st).map
      (fun x => (x.1, x.2.2))
  else if c = "4.1" then
    (algo_4_1__label_in_disjunct__before F h r p st).map (fun x => (x.1, x.2.2))
  else if c = "4.2" then
    (algo_4_2__label_in_disjunct__after F h r p st).map (fun x => (x.1, x.2.2))
  else none

/-- One pass of the `for context in statements.keys()` loop: find the
first context holding a goto/label pair. -/
def scan_contexts (F : Nat) (h : Heap) :
    List (String × Ref) → Option (Option (Ref × Heap × Pair))
  | [] => some none
  | (_, r) :: rest =>
    match find_pair F h r with
    | none => none
    | some .nofind => scan_contexts F h rest
    | some (.found h' p) => some (some (r, h', p))

/-- The `while True` of `eliminate_goto`: rewrite one pair per
iteration, restart the scan, stop when no context holds a pair. -/
def elim_loop (F : Nat) : Nat → Heap → List (String × Ref) → St →
    Option (Heap × St)
  | 0, _, _, _ => none
  | k + 1, h, ctxs, st =>
    match scan_contexts F h ctxs with
    | none => none
    | some none => some (h, st)
    | some (some (r, h', p)) =>
      match dispatch_case F (classify p.gotoPath p.labelPath) h' r p st with
      | none => none
      | some (h2, st2) => elim_loop F k h2 ctxs st2

/-- `eliminate_goto(program)`: reset `TEMP_VAR_NUM` (whatever state
`st0` the process global was left in, it is discarded) and loop until no
goto remains.  A program is the context map `ctxs` plus the heap `h` its
statement lists live in; `F` is the fuel for the driver loop and every
inner recursion. -/
def eliminate_goto (F : Nat) (h : Heap) (ctxs : List (String × Ref))
    (st0 : St) : Option (Heap × St) :=
  elim_loop F F h ctxs ⟨0, []⟩

/-! ## Lexer (`src/bastors/lex.py`)

A transcription of `Lexer.get_tokens` with its one-character lookahead.
The iterator state is the remaining character list plus the line/column
counters; `is_comment` and the accumulated lexeme are the loop locals.
`Char.isAlpha`/`Char.isUpper`/`Char.isDigit` stand in for Python's
`str.isalpha`/`isupper`/`isnumeric` (they agree on ASCII, and the
branches guarded by them never raise, so the error behaviour is
unaffected). -/

inductive TokenEnum where
  | NUMBER
  | STRING
  | STATEMENT
  | VARIABLE
  | ARITHMETIC_OP
  | RELATION_OP
  | COMMA
  | LPAREN
  | RPAREN
  | COMMENT
  | EOF
deriving DecidableEq, Repr

/-- A lexer token (`Token` namedtuple). -/
structure Token where
  value : String
  type : TokenEnum
  line : Nat
  col : Int
deriving DecidableEq, Repr

/-- The two `raise LexError` sites of lex.py. -/
inductive LexErrKind where
  | unknownSymbol
  | unknownToken
deriving DecidableEq, Repr

/-- A `LexError` with the offending lexeme. -/
structure LexErr where
  kind : LexErrKind
  lexeme : String
  line : Nat
  col : Int
deriving DecidableEq, Repr

def arithmeticOps : List String := ["+", "-", "*", "/"]

def relationOps : List String := ["<", ">", "=", "<>", "<=", ">="]

/-- `self._sym`. -/
def symList : List String := ["(", ")", ","] ++ arithmeticOps ++ relationOps

/-- `KEYWORDS`. -/
def keywords : List String :=
  ["PRINT", "IF", "THEN", "GOTO", "INPUT", "LET", "GOSUB", "RETURN",
   "CLEAR", "LIST", "RUN", "END", "FOR", "TO", "STEP", "NEXT"]

/-- `string.whitespace`. -/
def pyWhitespace : List Char := [' ', '\t', '\n', '\x0b', '\x0c', '\r']

/-- `Lexer.__append_token`: the token starts `len(lexeme)` columns back. -/
def mkToken (lx : String) (tt : TokenEnum) (line : Nat) (col : Nat) : Token :=
  ⟨lx, tt, line, (col : Int) + 1 - lx.length⟩

/-- The classification chain of `__append_symbol` (each `if` overwrites
`token_type`; the sets are disjoint). -/
def symbolType (lx : String) : Option TokenEnum :=
  let t1 := if lx ∈ arithmeticOps then some TokenEnum.ARITHMETIC_OP else none
  let t2 := if lx ∈ relationOps then some TokenEnum.RELATION_OP else t1
  let t3 := if lx = "(" then some TokenEnum.LPAREN else t2
  let t4 := if lx = ")" then some TokenEnum.RPAREN else t3
  if lx = "," then some TokenEnum.COMMA else t4

/-- `__append_symbol`: classify or raise `unknown symbol`. -/
def append_symbol (lx : String) (line : Nat) (col : Nat) :
    Except LexErr Token :=
  match symbolType lx with
  | none => .error ⟨.unknownSymbol, lx, line, col⟩
  | some tt => .ok (mkToken lx tt line col)

/-- `lexeme.startswith('"')`: the first character is a double quote. -/
def startsWithQuote (s : String) : Bool :=
  match s.data with
  | [] => false
  | c :: _ => c = '"'

/-- `str.isalpha` (ASCII). -/
def pyIsAlphaStr (s : String) : Bool := s.length ≠ 0 && s.data.all Char.isAlpha

/-- `str.isupper` (ASCII). -/
def pyIsUpperStr (s : String) : Bool := s.length ≠ 0 && s.data.all Char.isUpper

/-- `str.isnumeric` (ASCII digits). -/
def pyIsNumericStr (s : String) : Bool := s.length ≠ 0 && s.data.all Char.isDigit

/-- `line` after consuming `c` (newline starts a new line). -/
def lex_line1 (c : Char) (line : Nat) : Nat :=
  if c = '\n' then line + 1 else line

/-- `col` after consuming `c` (newline resets the column). -/
def lex_col1 (c : Char) (col : Nat) : Nat :=
  if c = '\n' then 0 else col + 1

/-- The local `lexeme` after consuming `c`: whitespace is skipped, any
other character is appended. -/
def lex_lx1 (c : Char) (lx : String) : String :=
  if c ∈ pyWhitespace then lx else lx.push c

/-- The outcome of one iteration of the `get_tokens` loop. -/
inductive LexStep where
  | err (e : LexErr)
  | done (tokens : List Token)
  | next (rest : List Char) (lx : String) (tokens : List Token) (ic : Bool)
      (line : Nat) (col : Nat)

/-- `__complete_lexeme` when the separator test succeeded: classify the
lexeme, raising `unknown token` only when it is longer than one
character (a single unknown character falls through and is dropped). -/
def lex_complete (rest : List Char) (lx1 : String) (tokens : List Token)
    (ic : Bool) (line1 col1 : Nat) : LexStep :=
  if lx1 ∈ keywords then
    .next rest "" (tokens ++ [mkToken lx1 .STATEMENT line1 col1]) ic line1 col1
  else if lx1 = "REM" then .next rest "" tokens true line1 col1
  else if lx1.length = 1 ∧ pyIsAlphaStr lx1 ∧ pyIsUpperStr lx1 then
    .next rest "" (tokens ++ [mkToken lx1 .VARIABLE line1 col1]) ic line1 col1
  else if pyIsNumericStr lx1 then
    .next rest "" (tokens ++ [mkToken lx1 .NUMBER line1 col1]) ic line1 col1
  else if 1 < lx1.length then
    .err ⟨.unknownToken, lx1, line1, (col1 : Int) + 1 - lx1.length⟩
  else .next rest "" tokens ic line1 col1

/-- `__symbol()` with a lookahead character available: the two-character
symbol is tried first, then the lexeme itself, then completion when the
lookahead is a separator. -/
def lex_lookahead (n : Char) (rest2 : List Char) (lx1 : String)
    (tokens : List Token) (ic : Bool) (line1 col1 : Nat) : LexStep :=
  if (lx1.push n) ∈ symList then
    match append_symbol (lx1.push n) line1 col1 with
    | .error e => .err e
    | .ok tk =>
      .next rest2 "" (tokens ++ [tk]) ic (lex_line1 n line1) (lex_col1 n col1)
  else if lx1 ∈ symList then
    match append_symbol lx1 line1 col1 with
    | .error e => .err e
    | .ok tk => .next (n :: rest2) "" (tokens ++ [tk]) ic line1 col1
  else if n ∈ pyWhitespace ∨ (String.mk [n]) ∈ symList then
    lex_complete (n :: rest2) lx1 tokens ic line1 col1
  else .next (n :: rest2) lx1 tokens ic line1 col1

/-- The last character was just consumed: the next loop iteration sees
`char is None`, completes the lexeme and breaks. -/
def lex_last (lx1 : String) (tokens : List Token) (line1 col1 : Nat) :
    LexStep :=
  if lx1 ∈ symList then
    match append_symbol lx1 line1 col1 with
    | .error e => .err e
    | .ok tk => .done (tokens ++ [tk])
  else if lx1 ∈ keywords then
    .done (tokens ++ [mkToken lx1 .STATEMENT line1 col1])
  else if lx1 = "REM" then .done tokens
  else if lx1.length = 1 ∧ pyIsAlphaStr lx1 ∧ pyIsUpperStr lx1 then
    .done (tokens ++ [mkToken lx1 .VARIABLE line1 col1])
  else if pyIsNumericStr lx1 then
    .done (tokens ++ [mkToken lx1 .NUMBER line1 col1])
  else if 1 < lx1.length then
    .err ⟨.unknownToken, lx1, line1, (col1 : Int) + 1 - lx1.length⟩
  else .done tokens

/-- One iteration of the body of `Lexer.get_tokens`: consume `c` (and on
the two-character-symbol path also the lookahead), producing either an
error, the final token list (the paths that end the scan), or the state
of the next iteration. -/
def lex_step (c : Char) (rest : List Char) (lx : String)
    (tokens : List Token) (ic : Bool) (line col : Nat) : LexStep :=
  if ic then
    -- comment mode: accumulate until the newline ends it
    if 1 < (lx.push c).length ∧ (lx.push c).back = '\n' then
      .next rest "" (tokens ++
        [mkToken (lx.push c) .COMMENT (lex_line1 c line) (lex_col1 c col)])
        false (lex_line1 c line) (lex_col1 c col)
    else if (lx.push c).length = 0 then
      .next rest "" tokens false (lex_line1 c line) (lex_col1 c col)
    else .next rest (lx.push c) tokens true (lex_line1 c line) (lex_col1 c col)
  else if c = '"' ∨ startsWithQuote lx then
    -- string literal mode
    if 1 < (lx.push c).length ∧ (lx.push c).back = '"' then
      .next rest "" (tokens ++
        [mkToken (lx.push c) .STRING (lex_line1 c line) (lex_col1 c col)])
        ic (lex_line1 c line) (lex_col1 c col)
    else .next rest (lx.push c) tokens ic (lex_line1 c line) (lex_col1 c col)
  else
    match rest with
    | n :: rest2 =>
      lex_lookahead n rest2 (lex_lx1 c lx) tokens ic
        (lex_line1 c line) (lex_col1 c col)
    | [] => lex_last (lex_lx1 c lx) tokens (lex_line1 c line) (lex_col1 c col)

/-- The loop of `Lexer.get_tokens`, one `lex_step` per consumed
character.  The fuel only makes the recursion structural: every
iteration consumes at least one character, so with `fuel = |input|` the
fuel-exhaustion equation (which mirrors the loop's `break`) is never
reached on a non-empty rest. -/
def get_tokens_go : Nat → List Char → String → List Token → Bool → Nat →
    Nat → Except LexErr (List Token)
  | _, [], _, tokens, _, _, _ => .ok tokens
  | 0, _ :: _, _, tokens, _, _, _ => .ok tokens
  | F + 1, c :: rest, lx, tokens, ic, line, col =>
    match lex_step c rest lx tokens ic line col with
    | .err e => .error e
    | .done t => .ok t
    | .next rest1 lx1 tokens1 ic1 line1 col1 =>
      get_tokens_go F rest1 lx1 tokens1 ic1 line1 col1

/-- `Lexer(program).get_tokens()`. -/
def get_tokens (program : List Char) : Except LexErr (List Token) :=
  get_tokens_go program.length program "" [] false 1 0

/-! # Theorems -/

/-! ## C2: the classifier is a total partition into the 8 cases -/

/-- C2: for every goto/label pair (any two paths), `classify` returns
exactly one of the 8 labels `1.1 … 4.2`; consequently the driver's
`raise GotoEliminationError("Unsupported GOTO case")` fallback of
`eliminate_goto` (the final `none` of `dispatch_case`) is unreachable,
since `known_case` guards exactly the eight dispatched branches. -/
theorem classify_partition (G L : List Int) :
    classify G L ∈ ["1.1", "1.2", "2.1", "2.2", "3.1", "3.2", "4.1", "4.2"] ∧
    known_case (classify G L) = true := by
  unfold classify known_case
  repeat' split
  all_goals cases hb : is_goto_before_label G L <;> simp [hb]

/-! ## C3: the before-relation on a proper-prefix goto path

The claim (and the spec's definition of `before`) says that a goto path
that is a proper prefix of the label path counts as *before* and lands
in a `.1` case.  The code walks the goto path and falls through to
`return False` when the goto path is exhausted first, so such a pair is
*not* before and is classified `2.2`. -/

/-- C3 counterexample: `G = [0]` is a proper prefix of `L = [0, 0]`, yet
`__is_goto_before_label` returns `False` and the pair classifies as
`2.2`, not a `.1` case. -/
theorem before_proper_prefix_counterexample :
    ([(0 : Int)] <+: [0, 0]) ∧ ([(0 : Int)] ≠ [0, 0]) ∧
    is_goto_before_label [0] [0, 0] = false ∧
    classify [0] [0, 0] = "2.2" :=
  ⟨⟨[0], rfl⟩, by decide, by decide, by decide⟩

/-- When the goto path is a prefix of the label path, the walk of
`__is_goto_before_label` exhausts the goto path on equal indices and
falls through to `return False`. -/
theorem before_goto_prefix_false (G t : List Int) :
    is_goto_before_label G (G ++ t) = false := by
  induction G with
  | nil => rfl
  | cons g gs ih => simp [is_goto_before_label, ih]

/-- C3 amended: whenever the goto path is a proper prefix of the label
path, the before-relation is `false` and the pair is classified `2.2`
(a `.2` case, goto-after-label). -/
theorem before_proper_prefix_amended (G L : List Int)
    (hpre : G <+: L) (hne : G ≠ L) :
    is_goto_before_label G L = false ∧ classify G L = "2.2" := by
  obtain ⟨t, rfl⟩ := hpre
  have ht : 0 < t.length := by
    cases t with
    | nil => exact absurd (by simp) hne
    | cons a t' => simp
  refine ⟨before_goto_prefix_false G t, ?_⟩
  unfold classify
  rw [before_goto_prefix_false G t]
  rw [if_neg, if_pos]
  · simp
  · refine ⟨?_, ?_⟩
    · simp only [List.length_append]
      omega
    · rw [List.take_left]
  · rintro ⟨h1, _⟩
    simp only [List.length_append] at h1
    omega

/-- C3 amended, witnessed at `G = [0]`, `L = [0, 0]`. -/
theorem before_proper_prefix_amended_witness :
    is_goto_before_label [0] [0, 0] = false ∧ classify [0] [0, 0] = "2.2" :=
  before_proper_prefix_amended [0] [0, 0] ⟨[0], rfl⟩ (by decide)

/-! ## C6: the four-variant inversion is total and maps as specified -/

/-- A syntactically valid condition: the relational operator is one of
the six the lexer can produce, a `TrueFalseCondition` value is `"true"`
or `"false"`. -/
def wf_cond : Cond → Prop
  | .rel _ op _ _ => op ∈ ["<>", "=", "<=", ">", ">=", "<"]
  | .tf v _ => v = "true" ∨ v = "false"
  | _ => True

/-- The claim's link clause: `AND`↔`OR`, `INITIAL` unchanged. -/
def link_inverted : Link → Link → Prop
  | .andL, k' => k' = .orL
  | .orL, k' => k' = .andL
  | .initial, k' => k' = .initial

/-- The claim's operator clause. -/
def op_inverted (op op' : String) : Prop :=
  (op = "=" ∧ op' = "<>") ∨ (op = "<>" ∧ op' = "=") ∨
  (op = "<" ∧ op' = ">=") ∨ (op = ">=" ∧ op' = "<") ∨
  (op = ">" ∧ op' = "<=") ∨ (op = "<=" ∧ op' = ">")

/-- The claim's description of what inversion does to one condition:
`VariableCond`↔`NotVariableCond`, a flipped `TrueFalseCond` value, an
inverted `Relation` operator, links swapped. -/
def cond_inverted : Cond → Cond → Prop
  | .varC n k, .notVarC n' k' => n' = n ∧ link_inverted k k'
  | .notVarC n k, .varC n' k' => n' = n ∧ link_inverted k k'
  | .tf v k, .tf v' k' =>
    ((v = "true" ∧ v' = "false") ∨ (v = "false" ∧ v' = "true")) ∧
    link_inverted k k'
  | .rel l op r k, .rel l' op' r' k' =>
    l' = l ∧ r' = r ∧ op_inverted op op' ∧ link_inverted k k'
  | _, _ => False

/-- C6: condition-list inversion is total over all four condition
variants, and pointwise performs exactly the mapping the claim states.
(spec-modelled: the four-variant `invert_conditions` is declared in a
revision of `parse.py` that is not under `src/`; see
`invert_condition`.) -/
theorem invert_conditions_total (cs : List Cond) (h : ∀ c ∈ cs, wf_cond c) :
    ∃ cs', invert_conditions cs = some cs' ∧
      List.Forall₂ cond_inverted cs cs' := by
  induction cs with
  | nil => exact ⟨[], rfl, List.Forall₂.nil⟩
  | cons c rest ih =>
    obtain ⟨rest', hr, hfa⟩ := ih (fun x hx => h x (List.mem_cons_of_mem c hx))
    have hc : wf_cond c := h c (List.mem_cons_self c rest)
    have : ∃ c', invert_condition c = some c' ∧ cond_inverted c c' := by
      cases c with
      | rel l op r k =>
        simp only [wf_cond, List.mem_cons, List.not_mem_nil, or_false] at hc
        rcases hc with rfl | rfl | rfl | rfl | rfl | rfl <;>
          cases k <;>
            exact ⟨_, rfl, rfl, rfl, by simp [op_inverted], rfl⟩
      | varC n k => cases k <;> exact ⟨_, rfl, rfl, rfl⟩
      | notVarC n k => cases k <;> exact ⟨_, rfl, rfl, rfl⟩
      | tf v k =>
        rcases hc with rfl | rfl <;> cases k <;>
          exact ⟨_, rfl, by simp, rfl⟩
    obtain ⟨c', hcc, hci⟩ := this
    refine ⟨c' :: rest', ?_, List.Forall₂.cons hci hfa⟩
    simp [invert_conditions, hcc, hr]

/-- C6 witness: a four-variant condition list inverts successfully with
the stated pointwise mapping. -/
theorem invert_conditions_total_witness :
    ∃ cs', invert_conditions
        [Cond.rel (Expr.varE "a") "<=" (Expr.num 1) Link.initial,
         Cond.varC "t1" Link.andL,
         Cond.notVarC "t2" Link.orL,
         Cond.tf "true" Link.andL] = some cs' ∧
      List.Forall₂ cond_inverted
        [Cond.rel (Expr.varE "a") "<=" (Expr.num 1) Link.initial,
         Cond.varC "t1" Link.andL,
         Cond.notVarC "t2" Link.orL,
         Cond.tf "true" Link.andL] cs' :=
  invert_conditions_total _ (by
    intro c hc
    simp only [List.mem_cons, List.not_mem_nil, or_false] at hc
    rcases hc with rfl | rfl | rfl | rfl <;> simp [wf_cond])

/-! ## C7: inversion is an involution on relational condition lists -/

/-- A relational condition with one of the six grammar operators — the
only conditions the `src/` revision of `invert_conditions` handles. -/
def rel_only (c : Cond) : Prop :=
  ∃ l op r k, c = Cond.rel l op r k ∧ op ∈ ["<>", "=", "<=", ">", ">=", "<"]

theorem flip_link_flip_link (k : Link) : flip_link (flip_link k) = k := by
  cases k <;> rfl

/-- One step of the involution argument, for an operator pair
`op`/`op'` that the table maps to each other. -/
theorem invert_src_go_step (prev : Option String) (l r : Expr) (k : Link)
    (rest rest' : List Cond) (op op' : String)
    (hfwd : ∀ pv, invert_op_src pv op = some op')
    (hbwd : ∀ pv, invert_op_src pv op' = some op)
    (hop' : op' ∈ ["<>", "=", "<=", ">", ">=", "<"])
    (hr : invert_conditions_src_go (some op') rest = some rest')
    (hrel : ∀ c ∈ rest', rel_only c)
    (hback : ∀ pv, invert_conditions_src_go pv rest' = some rest) :
    ∃ cs', invert_conditions_src_go prev (Cond.rel l op r k :: rest) = some cs' ∧
      (∀ c ∈ cs', rel_only c) ∧
      ∀ pv, invert_conditions_src_go pv cs' = some (Cond.rel l op r k :: rest) := by
  refine ⟨Cond.rel l op' r (flip_link k) :: rest', ?_, ?_, ?_⟩
  · simp only [invert_conditions_src_go, hfwd prev, hr]
  · intro x hx
    rcases List.mem_cons.mp hx with rfl | hx'
    · exact ⟨l, op', r, flip_link k, rfl, hop'⟩
    · exact hrel x hx'
  · intro pv
    simp only [invert_conditions_src_go, hbwd pv, hback (some op),
      flip_link_flip_link]

/-- The loop body of the src inversion succeeds on relational conditions
with grammar operators irrespective of the carried `new_op`, produces
only such conditions, and applying it again restores the input. -/
theorem invert_src_go_involution (cs : List Cond) (h : ∀ c ∈ cs, rel_only c) :
    ∀ prev, ∃ cs', invert_conditions_src_go prev cs = some cs' ∧
      (∀ c ∈ cs', rel_only c) ∧
      ∀ pv, invert_conditions_src_go pv cs' = some cs := by
  induction cs with
  | nil => exact fun prev => ⟨[], rfl, by simp, fun pv => rfl⟩
  | cons c rest ih =>
    intro prev
    obtain ⟨l, op, r, k, rfl, hop⟩ := h c (List.mem_cons_self c rest)
    have ihr := ih (fun x hx => h x (List.mem_cons_of_mem _ hx))
    simp only [List.mem_cons, List.not_mem_nil, or_false] at hop
    rcases hop with rfl | rfl | rfl | rfl | rfl | rfl
    · obtain ⟨rest', hr, hrel, hback⟩ := ihr (some "=")
      exact invert_src_go_step prev l r k rest rest' "<>" "="
        (fun pv => rfl) (fun pv => rfl) (by simp) hr hrel hback
    · obtain ⟨rest', hr, hrel, hback⟩ := ihr (some "<>")
      exact invert_src_go_step prev l r k rest rest' "=" "<>"
        (fun pv => rfl) (fun pv => rfl) (by simp) hr hrel hback
    · obtain ⟨rest', hr, hrel, hback⟩ := ihr (some ">")
      exact invert_src_go_step prev l r k rest rest' "<=" ">"
        (fun pv => rfl) (fun pv => rfl) (by simp) hr hrel hback
    · obtain ⟨rest', hr, hrel, hback⟩ := ihr (some "<=")
      exact invert_src_go_step prev l r k rest rest' ">" "<="
        (fun pv => rfl) (fun pv => rfl) (by simp) hr hrel hback
    · obtain ⟨rest', hr, hrel, hback⟩ := ihr (some "<")
      exact invert_src_go_step prev l r k rest rest' ">=" "<"
        (fun pv => rfl) (fun pv => rfl) (by simp) hr hrel hback
    · obtain ⟨rest', hr, hrel, hback⟩ := ihr (some ">=")
      exact invert_src_go_step prev l r k rest rest' "<" ">="
        (fun pv => rfl) (fun pv => rfl) (by simp) hr hrel hback

/-- C7: on every list of relational conditions (operators from the
grammar), applying the `src/bastors/parse.py` `invert_conditions` twice
returns a list structurally equal to the original. -/
theorem invert_conditions_src_involution (cs : List Cond)
    (h : ∀ c ∈ cs, rel_only c) :
    (invert_conditions_src cs).bind invert_conditions_src = some cs := by
  obtain ⟨cs', h1, _, hback⟩ := invert_src_go_involution cs h none
  unfold invert_conditions_src
  rw [h1]
  exact hback none

/-- C7 witness: a two-relation condition list round-trips. -/
theorem invert_conditions_src_involution_witness :
    (invert_conditions_src
        [Cond.rel (Expr.varE "a") "<" (Expr.num 1) Link.initial,
         Cond.rel (Expr.varE "b") "=" (Expr.num 2) Link.andL]).bind
      invert_conditions_src =
    some [Cond.rel (Expr.varE "a") "<" (Expr.num 1) Link.initial,
          Cond.rel (Expr.varE "b") "=" (Expr.num 2) Link.andL] :=
  invert_conditions_src_involution _ (by
    intro c hc
    simp only [List.mem_cons, List.not_mem_nil, or_false] at hc
    rcases hc with rfl | rfl
    · exact ⟨_, "<", _, _, rfl, by simp⟩
    · exact ⟨_, "=", _, _, rfl, by simp⟩)

/-! ## Facts about the list/heap primitives -/

theorem pyGetI_ofNat {α : Type} (xs : List α) (i : Nat) (h : i < xs.length) :
    pyGetI xs (i : Int) = some (xs.get ⟨i, h⟩) := by
  unfold pyGetI
  rw [if_neg (by omega)]
  rw [dif_pos (by simpa using h)]
  simp

theorem pySetI_ofNat {α : Type} (xs : List α) (i : Nat) (a : α)
    (h : i < xs.length) : pySetI xs (i : Int) a = some (xs.set i a) := by
  unfold pySetI
  rw [if_neg (by omega), if_pos (by simpa using h)]
  simp

theorem pyDelI_ofNat {α : Type} (xs : List α) (i : Nat) (h : i < xs.length) :
    pyDelI xs (i : Int) = some (xs.eraseIdx i) := by
  unfold pyDelI
  rw [if_neg (by omega), if_pos (by simpa using h)]
  simp

theorem pySliceBound_ofNat {len i : Nat} : pySliceBound len (i : Int) = min i len := by
  unfold pySliceBound
  rw [if_neg (by omega)]
  simp

theorem pySliceI_ofNat {α : Type} (xs : List α) (a b : Nat)
    (ha : a ≤ xs.length) (hb : b ≤ xs.length) :
    pySliceI xs (a : Int) (b : Int) = (xs.drop a).take (b - a) := by
  unfold pySliceI
  rw [pySliceBound_ofNat, pySliceBound_ofNat,
    Nat.min_eq_left ha, Nat.min_eq_left hb]

theorem pyDelSliceI_ofNat {α : Type} (xs : List α) (a b : Nat)
    (ha : a ≤ xs.length) (hb : b ≤ xs.length) (hab : a ≤ b) :
    pyDelSliceI xs (a : Int) (b : Int) = xs.take a ++ xs.drop b := by
  unfold pyDelSliceI
  simp only [pySliceBound_ofNat, Nat.min_eq_left ha, Nat.min_eq_left hb]
  rw [Nat.max_eq_right hab]

theorem readH_lt {h : Heap} {r : Ref} {xs : List Stmt}
    (hr : readH h r = some xs) : r < h.cells.length := by
  by_contra hcon
  unfold readH at hr
  rw [List.getElem?_eq_none (Nat.le_of_not_lt hcon)] at hr
  cases hr

theorem readH_writeH_self (h : Heap) (r : Ref) (xs : List Stmt)
    (hr : r < h.cells.length) : readH (writeH h r xs) r = some xs := by
  unfold readH writeH
  simp [List.getElem?_set, hr]

theorem writeH_length (h : Heap) (r : Ref) (xs : List Stmt) :
    (writeH h r xs).cells.length = h.cells.length := by
  unfold writeH
  simp

theorem readH_allocH_fresh (h : Heap) (xs : List Stmt) :
    readH (allocH h xs).2 (allocH h xs).1 = some xs := by
  unfold readH allocH
  simp

theorem readH_allocH_old (h : Heap) (xs : List Stmt) (r : Ref)
    (hr : r < h.cells.length) : readH (allocH h xs).2 r = readH h r := by
  unfold readH allocH
  simp [List.getElem?_append, hr]

theorem readH_writeH_of_ne (h : Heap) (r r' : Ref) (xs : List Stmt)
    (hne : r' ≠ r) : readH (writeH h r xs) r' = readH h r' := by
  unfold readH writeH
  rw [List.getElem?_set_ne (fun he => hne he.symm)]

/-! ## C4: the case 1.1 rewrite -/

/-- Replacing index `g` and then deleting `(g+1) … l` leaves
`take g ++ [x] ++ drop l`. -/
theorem take_set_drop_helper {α : Type} (xs : List α) (x : α) (g l : Nat)
    (hg : g < xs.length) (hgl : g < l) :
    (xs.set g x).take (g + 1) ++ (xs.set g x).drop l =
      xs.take g ++ x :: xs.drop l := by
  rw [List.set_eq_take_cons_drop x hg]
  have hlen : (xs.take g).length = g := by
    simp [List.length_take, Nat.le_of_lt hg]
  rw [List.take_append_eq_append_take, List.drop_append_eq_append_drop, hlen]
  have h1 : (xs.take g).take (g + 1) = xs.take g := by
    rw [List.take_take]
    congr 1
    omega
  have h2 : (x :: xs.drop (g + 1)).take (g + 1 - g) = [x] := by
    have : g + 1 - g = 1 := by omega
    rw [this]
    rfl
  have h3 : (xs.take g).drop l = [] := by
    apply List.drop_eq_nil_of_le
    omega
  have h4 : (x :: xs.drop (g + 1)).drop (l - g) = xs.drop l := by
    have : l - g = (l - g - 1) + 1 := by omega
    rw [this, List.drop_succ_cons, List.drop_drop]
    congr 1
    omega
  rw [h1, h2, h3, h4]
  simp

/-- C4: applied to a same-block pair with the goto (at offset `g`)
before the label (at offset `l`), case 1.1 replaces the goto with an
`If` on the inverted conditions whose body is exactly the statements
strictly between goto and label, deleting them from their original
positions; with nothing in between it just deletes the goto and leaves
the rest of the block unchanged. -/
theorem algo_1_1_spec (F : Nat) (h : Heap) (r B : Ref) (p : Pair)
    (bl : List Stmt)
    (g l : Nat) (lab : Option Int) (cs ics : List Cond) (b : Ref)
    (hB : get_block F h r p.gotoPath = some (some B))
    (hbl : readH h B = some bl)
    (hg : pyGetI p.gotoPath (-1) = some ((g : Nat) : Int))
    (hl : pyGetI p.labelPath (-1) = some ((l : Nat) : Int))
    (hglen : g < bl.length)
    (hgs : bl.get ⟨g, hglen⟩ = Stmt.ifS lab cs b)
    (hinv : invert_conditions cs = some ics)
    (hgl : g < l) (hle : l ≤ bl.length) :
    ∃ h', algo_1_1_same_level_same_block__before F h r p = some h' ∧
      ((g + 1 < l →
        readH h' B =
          some (bl.take g ++ Stmt.ifS lab ics h.cells.length :: bl.drop l) ∧
        readH h' h.cells.length = some ((bl.drop (g + 1)).take (l - (g + 1)))) ∧
      (l = g + 1 → readH h' B = some (bl.take g ++ bl.drop (g + 1)))) := by
  have hBlen : B < h.cells.length := readH_lt hbl
  have hcast : ((g : Int) + 1) = ((g + 1 : Nat) : Int) := by push_cast; ring
  have hslice : pySliceI bl ((g : Int) + 1) (l : Int) =
      (bl.drop (g + 1)).take (l - (g + 1)) := by
    rw [hcast, pySliceI_ofNat bl (g + 1) l (by omega) hle]
  have hlenslice : ((bl.drop (g + 1)).take (l - (g + 1))).length = l - (g + 1) := by
    simp only [List.length_take, List.length_drop]
    omega
  have hgoto : pyGetI bl ((g : Nat) : Int) = some (Stmt.ifS lab cs b) := by
    rw [pyGetI_ofNat bl g hglen, hgs]
  simp only [algo_1_1_same_level_same_block__before, hB, hbl, hg, hl, hgoto,
    hslice, hlenslice]
  by_cases hcase : g + 1 < l
  · -- statements strictly between: build the If
    rw [if_pos (by omega)]
    simp only [attr_label, attr_conditions, hinv]
    rw [pySetI_ofNat bl g _ hglen]
    refine ⟨_, rfl, ⟨fun _ => ?_, fun hbad => by omega⟩⟩
    have hall : B <
        ((allocH h ((bl.drop (g + 1)).take (l - (g + 1)))).2).cells.length := by
      unfold allocH
      simp only [List.length_append, List.length_singleton]
      exact Nat.lt_succ_of_lt hBlen
    have hfresh : h.cells.length ≠ B := Nat.ne_of_gt hBlen
    constructor
    · rw [readH_writeH_self _ _ _ hall]
      congr 1
      rw [hcast, pyDelSliceI_ofNat _ (g + 1) l (by simp; omega) (by simp [hle])
        (by omega)]
      exact take_set_drop_helper bl _ g l hglen hgl
    · rw [readH_writeH_of_ne _ B h.cells.length _ hfresh]
      exact readH_allocH_fresh h _
  · -- label immediately after the goto: just delete it
    rw [if_neg (by omega)]
    rw [pyDelI_ofNat bl g hglen]
    refine ⟨_, rfl, ⟨fun hbad => by omega, fun _ => ?_⟩⟩
    rw [readH_writeH_self _ _ _ hBlen]
    rw [List.eraseIdx_eq_take_drop_succ]

/-- Block used by the case 1.1 witness: a conditional goto at offset 0,
one statement between it and the label at offset 2. -/
def w11Bl : List Stmt :=
  [Stmt.ifS (some 20) [Cond.varC "x" Link.initial] 1,
   Stmt.letS (some 30) (Expr.varE "b") (Expr.num 2),
   Stmt.printS (some 50) [Expr.varE "a"]]

def w11H : Heap := ⟨[w11Bl, [Stmt.gotoS (some 20) 50]]⟩

/-- C4 witness: the rewrite at `g = 0`, `l = 2` in a three-statement
block. -/
theorem algo_1_1_spec_witness :
    ∃ h', algo_1_1_same_level_same_block__before 9 w11H 0 ⟨[0], [2]⟩ = some h' ∧
      ((0 + 1 < 2 →
        readH h' 0 = some (w11Bl.take 0 ++
          Stmt.ifS (some 20) [Cond.notVarC "x" Link.initial]
            w11H.cells.length :: w11Bl.drop 2) ∧
        readH h' w11H.cells.length =
          some ((w11Bl.drop (0 + 1)).take (2 - (0 + 1)))) ∧
      (2 = 0 + 1 → readH h' 0 = some (w11Bl.take 0 ++ w11Bl.drop (0 + 1)))) :=
  algo_1_1_spec 9 w11H 0 0 ⟨[0], [2]⟩ w11Bl 0 2 (some 20)
    [Cond.varC "x" Link.initial] [Cond.notVarC "x" Link.initial] 1
    rfl rfl rfl rfl (by decide) rfl rfl (by decide) (by decide)

/-! ## C5: the case 1.2 rewrite -/

theorem pyGetI_neg_one_ne_nil {α : Type} (xs : List α) (v : α)
    (h : pyGetI xs (-1) = some v) : xs ≠ [] := by
  intro hcon
  subst hcon
  cases h

theorem pyGetI_neg_one_exists {α : Type} (xs : List α) (hne : xs ≠ []) :
    ∃ v, pyGetI xs (-1) = some v := by
  unfold pyGetI
  have hlen : 0 < xs.length := List.length_pos.mpr hne
  rw [if_pos (by omega)]
  rw [dif_pos (by constructor <;> omega)]
  exact ⟨_, rfl⟩

theorem pySetI_neg_one {α : Type} (xs : List α) (a : α) (hne : xs ≠ []) :
    pySetI xs (-1) a = some (xs.set (xs.length - 1) a) := by
  unfold pySetI
  have hlen : 0 < xs.length := List.length_pos.mpr hne
  rw [if_pos (by omega), if_pos (by constructor <;> omega)]
  congr 2
  omega

theorem pyIncAt_neg_one_exists (xs : List Int) (hne : xs ≠ []) :
    ∃ ys, pyIncAt xs (-1) = some ys := by
  obtain ⟨v, hv⟩ := pyGetI_neg_one_exists xs hne
  unfold pyIncAt
  simp only [hv, pySetI_neg_one xs _ hne]
  exact ⟨_, rfl⟩

/-- C5: applied to a same-block pair with the label (at offset `l`)
before the goto (at offset `g`), case 1.2 replaces the label statement
with a `Loop` on the goto's condition list whose body is the span from
the label (inclusive) to the goto (exclusive), and deletes the rest of
the span together with the goto from the block. -/
theorem algo_1_2_spec (F : Nat) (h : Heap) (r B : Ref) (p : Pair)
    (bl : List Stmt)
    (g l : Nat) (lab : Option Int) (cs : List Cond) (b : Ref)
    (hB : get_block F h r p.gotoPath = some (some B))
    (hbl : readH h B = some bl)
    (hg : pyGetI p.gotoPath (-1) = some ((g : Nat) : Int))
    (hl : pyGetI p.labelPath (-1) = some ((l : Nat) : Int))
    (hglen : g < bl.length)
    (hgs : bl.get ⟨g, hglen⟩ = Stmt.ifS lab cs b)
    (hlg : l < g) :
    ∃ h' p', algo_1_2_same_level_same_block__after F h r p = some (h', p') ∧
      readH h' B = some (bl.take l ++
        Stmt.loopS none (some cs) h.cells.length :: bl.drop (g + 1)) ∧
      readH h' h.cells.length = some ((bl.drop l).take (g - l)) := by
  have hBlen : B < h.cells.length := readH_lt hbl
  have hllen : l < bl.length := by omega
  have hgoto : pyGetI bl ((g : Nat) : Int) = some (Stmt.ifS lab cs b) := by
    rw [pyGetI_ofNat bl g hglen, hgs]
  have hspan : pySliceI bl ((l : Nat) : Int) ((g : Nat) : Int) =
      (bl.drop l).take (g - l) :=
    pySliceI_ofNat bl l g (by omega) (by omega)
  have hset : pySetI bl ((l : Nat) : Int)
      (Stmt.loopS none (some cs)
        (allocH h ((bl.drop l).take (g - l))).1) =
      some (bl.set l (Stmt.loopS none (some cs)
        (allocH h ((bl.drop l).take (g - l))).1)) :=
    pySetI_ofNat bl l _ hllen
  have hgp := pyGetI_neg_one_ne_nil _ _ hg
  have hlp := pyGetI_neg_one_ne_nil _ _ hl
  simp only [algo_1_2_same_level_same_block__after, hB, hbl, hgoto, hg, hl,
    attr_conditions, hspan, hset]
  have hcast1 : ((l : Int) + 1) = ((l + 1 : Nat) : Int) := by push_cast; ring
  have hcast2 : ((g : Int) + 1) = ((g + 1 : Nat) : Int) := by push_cast; ring
  have hdel : pyDelSliceI
      (bl.set l (Stmt.loopS none (some cs)
        (allocH h ((bl.drop l).take (g - l))).1))
      ((l : Int) + 1) ((g : Int) + 1) =
      bl.take l ++ Stmt.loopS none (some cs)
        (allocH h ((bl.drop l).take (g - l))).1 :: bl.drop (g + 1) := by
    rw [hcast1, hcast2, pyDelSliceI_ofNat _ (l + 1) (g + 1)
      (by simp; omega) (by simp; omega) (by omega)]
    exact take_set_drop_helper bl _ l (g + 1) hllen (by omega)
  rw [hdel]
  obtain ⟨gp1, hgp1⟩ : ∃ ys, pySetI p.gotoPath (-1)
      ((g : Int) - (((pySliceI (bl.take l ++ Stmt.loopS none (some cs)
        (allocH h ((bl.drop l).take (g - l))).1 :: bl.drop (g + 1))
        ((l : Nat) : Int) ((g : Nat) : Int)).length : Int) + 1)) = some ys := by
    rw [pySetI_neg_one _ _ hgp]
    exact ⟨_, rfl⟩
  obtain ⟨lp1, hlp1⟩ := pyIncAt_neg_one_exists p.labelPath hlp
  rw [hgp1, hlp1]
  have hall2 : B < ((allocH h ((bl.drop l).take (g - l))).2).cells.length := by
    unfold allocH
    simp only [List.length_append, List.length_singleton]
    exact Nat.lt_succ_of_lt hBlen
  refine ⟨_, _, rfl, ?_, ?_⟩
  · rw [readH_writeH_self _ _ _ hall2]
    rfl
  · rw [readH_writeH_of_ne _ B h.cells.length _ (Nat.ne_of_gt hBlen)]
    exact readH_allocH_fresh h _

/-- Block used by the case 1.2 witness: the label at offset 0, the
conditional goto at offset 2. -/
def w12Bl : List Stmt :=
  [Stmt.printS (some 30) [Expr.varE "c"],
   Stmt.letS (some 40) (Expr.varE "a") (Expr.num 1),
   Stmt.ifS (some 50) [Cond.varC "x" Link.initial] 1]

def w12H : Heap := ⟨[w12Bl, [Stmt.gotoS (some 50) 30]]⟩

/-- C5 witness: the rewrite at `l = 0`, `g = 2` in a three-statement
block. -/
theorem algo_1_2_spec_witness :
    ∃ h' p', algo_1_2_same_level_same_block__after 9 w12H 0 ⟨[2], [0]⟩ =
        some (h', p') ∧
      readH h' 0 = some (w12Bl.take 0 ++
        Stmt.loopS none (some [Cond.varC "x" Link.initial])
          w12H.cells.length :: w12Bl.drop (2 + 1)) ∧
      readH h' w12H.cells.length = some ((w12Bl.drop 0).take (2 - 0)) :=
  algo_1_2_spec 9 w12H 0 0 ⟨[2], [0]⟩ w12Bl 2 0 (some 50)
    [Cond.varC "x" Link.initial] 1 rfl rfl rfl rfl (by decide) rfl (by decide)

/-! ## C1: soundness — a normally terminating run leaves no `Goto` -/

/-- The list a reference denotes (empty for a dangling reference). -/
def readL (h : Heap) (r : Ref) : List Stmt := (readH h r).getD []

/-- A statement is reachable from a context's list reference: it is an
element of the list, or reachable inside the body of an `If` or `Loop`
element — i.e. it occurs at some nesting depth inside `If`/`Loop`
statement lists. -/
inductive Reach (h : Heap) : Ref → Stmt → Prop where
  | here {r s} : s ∈ readL h r → Reach h r s
  | viaIf {r l c b s} : Stmt.ifS l c b ∈ readL h r → Reach h b s → Reach h r s
  | viaLoop {r l c b s} :
      Stmt.loopS l c b ∈ readL h r → Reach h b s → Reach h r s

/-- If the walk of `find_goto` reports no goto, then no element of the
walked suffix is a `Goto`, and each `If`/`Loop` body also reports no
goto (at some fuel). -/
theorem find_goto_go_nofind (rest : List Stmt) :
    ∀ F h r full i, find_goto_go F h r full rest i = some .nofind →
      ∀ s ∈ rest, isGotoStmt s = false ∧
        (∀ l c b, s = Stmt.ifS l c b →
          ∃ F', find_goto F' h b = some FindRes.nofind) ∧
        (∀ l c b, s = Stmt.loopS l c b →
          ∃ F', find_goto F' h b = some FindRes.nofind) := by
  induction rest with
  | nil => intro F h r full i _ s hs; cases hs
  | cons s0 rest ih =>
    intro F h r full i hgo s hs
    match F with
    | 0 => cases hgo
    | F + 1 =>
      rcases List.mem_cons.mp hs with rfl | hs'
      · -- the head of the walked suffix
        cases s with
        | gotoS lab tgt =>
          exfalso
          simp only [find_goto_go] at hgo
          split at hgo <;> cases hgo
        | ifS l c b =>
          simp only [find_goto_go] at hgo
          refine ⟨rfl, fun l' c' b' he => ?_, ?_⟩
          case refine_2 => intro l' c' b' he; cases he
          cases he
          cases hfb : find_goto F h b with
          | none => rw [hfb] at hgo; cases hgo
          | some res =>
            cases res with
            | nofind => exact ⟨F, hfb⟩
            | found pth t h' => rw [hfb] at hgo; cases hgo
        | loopS l c b =>
          simp only [find_goto_go] at hgo
          refine ⟨rfl, ?_, fun l' c' b' he => ?_⟩
          case refine_1 => intro l' c' b' he; cases he
          cases he
          cases hfb : find_goto F h b with
          | none => rw [hfb] at hgo; cases hgo
          | some res =>
            cases res with
            | nofind => exact ⟨F, hfb⟩
            | found pth t h' => rw [hfb] at hgo; cases hgo
        | letS l lv rv =>
          refine ⟨rfl, ?_, ?_⟩ <;> (intro l' c' b' he; cases he)
        | gosubS l t =>
          refine ⟨rfl, ?_, ?_⟩ <;> (intro l' c' b' he; cases he)
        | returnS l =>
          refine ⟨rfl, ?_, ?_⟩ <;> (intro l' c' b' he; cases he)
        | printS l items =>
          refine ⟨rfl, ?_, ?_⟩ <;> (intro l' c' b' he; cases he)
        | inputS l vars =>
          refine ⟨rfl, ?_, ?_⟩ <;> (intro l' c' b' he; cases he)
        | endS l =>
          refine ⟨rfl, ?_, ?_⟩ <;> (intro l' c' b' he; cases he)
        | breakS l =>
          refine ⟨rfl, ?_, ?_⟩ <;> (intro l' c' b' he; cases he)
        | tupleS inner =>
          refine ⟨rfl, ?_, ?_⟩ <;> (intro l' c' b' he; cases he)
      · -- in the tail: extract the recursive walk
        have hrec : find_goto_go F h r full rest (i + 1) = some .nofind := by
          cases s0 with
          | gotoS lab tgt =>
            exfalso
            simp only [find_goto_go] at hgo
            split at hgo <;> cases hgo
          | ifS l c b =>
            simp only [find_goto_go] at hgo
            cases hfb : find_goto F h b with
            | none => rw [hfb] at hgo; cases hgo
            | some res =>
              cases res with
              | nofind => rw [hfb] at hgo; exact hgo
              | found pth t h' => rw [hfb] at hgo; cases hgo
          | loopS l c b =>
            simp only [find_goto_go] at hgo
            cases hfb : find_goto F h b with
            | none => rw [hfb] at hgo; cases hgo
            | some res =>
              cases res with
              | nofind => rw [hfb] at hgo; exact hgo
              | found pth t h' => rw [hfb] at hgo; cases hgo
          | letS l lv rv => exact hgo
          | gosubS l t => exact hgo
          | returnS l => exact hgo
          | printS l items => exact hgo
          | inputS l vars => exact hgo
          | endS l => exact hgo
          | breakS l => exact hgo
          | tupleS inner => exact hgo
        exact ih F h r full (i + 1) hrec s hs'

/-- If `find_goto` reports no goto, no reachable statement is a `Goto`. -/
theorem find_goto_nofind_sound (h : Heap) (r : Ref) (s : Stmt)
    (hreach : Reach h r s) :
    ∀ F, find_goto F h r = some FindRes.nofind → isGotoStmt s = false := by
  induction hreach with
  | @here r s hmem =>
    intro F hF
    match F with
    | 0 => cases hF
    | F + 1 =>
      cases hrd : readH h r with
      | none =>
        simp only [find_goto, hrd] at hF
        cases hF
      | some stmts =>
        simp only [find_goto, hrd] at hF
        have hmem' : s ∈ stmts := by simpa [readL, hrd] using hmem
        exact (find_goto_go_nofind stmts F h r stmts 0 hF s hmem').1
  | @viaIf r l c b s hmem _ ih =>
    intro F hF
    match F with
    | 0 => cases hF
    | F + 1 =>
      cases hrd : readH h r with
      | none =>
        simp only [find_goto, hrd] at hF
        cases hF
      | some stmts =>
        simp only [find_goto, hrd] at hF
        have hmem' : Stmt.ifS l c b ∈ stmts := by simpa [readL, hrd] using hmem
        obtain ⟨F', hF'⟩ :=
          ((find_goto_go_nofind stmts F h r stmts 0 hF _ hmem').2.1 _ _ _ rfl)
        exact ih F' hF'
  | @viaLoop r l c b s hmem _ ih =>
    intro F hF
    match F with
    | 0 => cases hF
    | F + 1 =>
      cases hrd : readH h r with
      | none =>
        simp only [find_goto, hrd] at hF
        cases hF
      | some stmts =>
        simp only [find_goto, hrd] at hF
        have hmem' : Stmt.loopS l c b ∈ stmts := by
          simpa [readL, hrd] using hmem
        obtain ⟨F', hF'⟩ :=
          ((find_goto_go_nofind stmts F h r stmts 0 hF _ hmem').2.2 _ _ _ rfl)
        exact ih F' hF'

/-- A `nofind` from `find_pair` comes from a `nofind` of `find_goto`. -/
theorem find_pair_nofind (F : Nat) (h : Heap) (r : Ref)
    (hp : find_pair F h r = some PairRes.nofind) :
    find_goto F h r = some FindRes.nofind := by
  unfold find_pair at hp
  cases hfg : find_goto F h r with
  | none => rw [hfg] at hp; cases hp
  | some res =>
    cases res with
    | nofind => rfl
    | found gpath tgt h1 =>
      simp only [hfg] at hp
      cases hfl : find_label F h1 r (some tgt) with
      | none => simp only [hfl] at hp; cases hp
      | some lres =>
        simp only [hfl] at hp
        cases lres with
        | none => cases hp
        | some lpath => cases hp

/-- The scan returning "no pair anywhere" means every context's
`find_pair` said `nofind`. -/
theorem scan_contexts_none (F : Nat) (h : Heap) :
    ∀ ctxs : List (String × Ref), scan_contexts F h ctxs = some none →
      ∀ c r, (c, r) ∈ ctxs → find_pair F h r = some PairRes.nofind := by
  intro ctxs
  induction ctxs with
  | nil => intro _ c r hmem; cases hmem
  | cons cr rest ih =>
    intro hscan c r hmem
    obtain ⟨c0, r0⟩ := cr
    simp only [scan_contexts] at hscan
    cases hfp : find_pair F h r0 with
    | none => rw [hfp] at hscan; cases hscan
    | some res =>
      rw [hfp] at hscan
      cases res with
      | found h' p => cases hscan
      | nofind =>
        rcases List.mem_cons.mp hmem with heq | hmem'
        · cases heq
          exact hfp
        · exact ih hscan c r hmem'

/-- A successful run of the driver loop ends with a scan that finds no
pair in the final heap. -/
theorem elim_loop_final_scan (F : Nat) (ctxs : List (String × Ref)) :
    ∀ k h st h1 s1, elim_loop F k h ctxs st = some (h1, s1) →
      scan_contexts F h1 ctxs = some none := by
  intro k
  induction k with
  | zero => intro h st h1 s1 he; cases he
  | succ k ih =>
    intro h st h1 s1 he
    simp only [elim_loop] at he
    cases hscan : scan_contexts F h ctxs with
    | none => rw [hscan] at he; cases he
    | some o =>
      rw [hscan] at he
      cases o with
      | none =>
        cases he
        exact hscan
      | some rp =>
        obtain ⟨r, h', p⟩ := rp
        simp only [] at he
        cases hd : dispatch_case F (classify p.gotoPath p.labelPath) h' r p st with
        | none => simp only [hd] at he; cases he
        | some out =>
          simp only [hd] at he
          exact ih out.1 out.2 h1 s1 he

/-- C1 (P1 soundness): whenever `eliminate_goto` terminates normally,
no statement reachable from any context of the returned program — at
any nesting depth inside `If` or `Loop` statement lists — is a `Goto`. -/
theorem eliminate_goto_sound (F : Nat) (h : Heap)
    (ctxs : List (String × Ref)) (st0 : St) (h1 : Heap) (s1 : St)
    (heq : eliminate_goto F h ctxs st0 = some (h1, s1)) :
    ∀ c r, (c, r) ∈ ctxs → ∀ s, Reach h1 r s → isGotoStmt s = false := by
  intro c r hmem s hreach
  have hscan := elim_loop_final_scan F ctxs F h ⟨0, []⟩ h1 s1 heq
  have hfp := scan_contexts_none F h1 ctxs hscan c r hmem
  exact find_goto_nofind_sound h1 r s hreach F (find_pair_nofind F h1 r hfp)

/-- Input program for the driver witnesses: scenario 1 of spec §8.3 with
the conditional goto left as a residual `Goto` node (the elimination
pass must not assume parser pre-folding). -/
def elimMain : List Stmt :=
  [Stmt.letS (some 10) (Expr.varE "a") (Expr.num 1),
   Stmt.ifS (some 20) [Cond.rel (Expr.varE "a") "=" (Expr.num 1) Link.initial] 1,
   Stmt.letS (some 30) (Expr.varE "b")
     (Expr.arith (some (Expr.varE "a")) "+" (Expr.num 2)),
   Stmt.printS (some 40) [Expr.varE "b"],
   Stmt.printS (some 50) [Expr.varE "a"],
   Stmt.endS (some 60)]

def elimH0 : Heap := ⟨[elimMain, [Stmt.gotoS (some 20) 50]]⟩

/-- The heap `eliminate_goto` produces from `elimH0` (case 1.1 fires
once; cell 1 is the now-unreferenced old goto list). -/
def elimH1 : Heap :=
  ⟨[[Stmt.letS (some 10) (Expr.varE "a") (Expr.num 1),
     Stmt.ifS (some 20)
       [Cond.rel (Expr.varE "a") "<>" (Expr.num 1) Link.initial] 2,
     Stmt.printS (some 50) [Expr.varE "a"],
     Stmt.endS (some 60)],
    [Stmt.gotoS (some 20) 50],
    [Stmt.letS (some 30) (Expr.varE "b")
       (Expr.arith (some (Expr.varE "a")) "+" (Expr.num 2)),
     Stmt.printS (some 40) [Expr.varE "b"]]]⟩

/-- C1 witness: on a program with one residual goto the run terminates
normally, and the statement reached through the rewritten `If`'s body
(two levels deep in the result) is not a goto. -/
theorem eliminate_goto_sound_witness :
    isGotoStmt (Stmt.printS (some 40) [Expr.varE "b"]) = false :=
  eliminate_goto_sound 20 elimH0 [("main", 0)] ⟨7, ["x"]⟩ elimH1 ⟨0, []⟩ rfl
    "main" 0 (List.mem_singleton.mpr rfl) _
    (Reach.viaIf (List.Mem.tail _ (List.Mem.head _))
      (Reach.here (List.Mem.tail _ (List.Mem.head _))))

/-! ## C8: idempotence of `eliminate_goto` -/

/-- C8 (P5): a second run of `eliminate_goto` on the output of a normal
first run returns the output unchanged — the first scan finds no pair,
so the driver returns the program as is (same heap, same context map;
in particular a program already containing no `Goto` is returned
unchanged).  The process-global temp state plays no role: it is reset
on entry. -/
theorem eliminate_goto_idempotent (F : Nat) (h : Heap)
    (ctxs : List (String × Ref)) (st0 st0' : St) (h1 : Heap) (s1 : St)
    (heq : eliminate_goto F h ctxs st0 = some (h1, s1)) :
    eliminate_goto F h1 ctxs st0' = some (h1, (⟨0, []⟩ : St)) := by
  have hscan := elim_loop_final_scan F ctxs F h ⟨0, []⟩ h1 s1 heq
  match F, heq with
  | 0, heq => cases heq
  | F + 1, heq =>
    unfold eliminate_goto
    simp only [elim_loop, hscan]

/-- C8 witness: running the driver twice on the witness program. -/
theorem eliminate_goto_idempotent_witness :
    eliminate_goto 20 elimH1 [("main", 0)] ⟨3, ["t1"]⟩ =
      some (elimH1, (⟨0, []⟩ : St)) :=
  eliminate_goto_idempotent 20 elimH0 [("main", 0)] ⟨7, ["x"]⟩ ⟨3, ["t1"]⟩
    elimH1 ⟨0, []⟩ rfl

/-! ## C9: freshness and shape of the generated temporaries -/

/-- The digit character `chr(48 + d)` of `"%d"` rendering. -/
def digitChar10 (d : Nat) : Char := Char.ofNat (48 + d)

theorem decDigitsAux_eq_digits :
    ∀ f n, n ≤ f → decDigitsAux f n = Nat.digits 10 n := by
  intro f
  induction f with
  | zero =>
    intro n hn
    interval_cases n
    rw [Nat.digits_zero]
    rfl
  | succ f ih =>
    intro n hn
    match n with
    | 0 => rw [Nat.digits_zero]; rfl
    | n + 1 =>
      rw [Nat.digits_def' (by norm_num : (1 : Nat) < 10) (Nat.succ_pos n)]
      show ((n + 1) % 10) :: decDigitsAux f ((n + 1) / 10) = _
      rw [ih ((n + 1) / 10) (by
        have := Nat.div_lt_self (Nat.succ_pos n) (by norm_num : 1 < 10)
        omega)]

theorem digitChar10_inj_fin :
    ∀ d1 d2 : Fin 10, digitChar10 d1.val = digitChar10 d2.val →
      d1.val = d2.val := by decide

theorem digitChar10_inj {d1 d2 : Nat} (h1 : d1 < 10) (h2 : d2 < 10)
    (he : digitChar10 d1 = digitChar10 d2) : d1 = d2 :=
  digitChar10_inj_fin ⟨d1, h1⟩ ⟨d2, h2⟩ he

theorem map_digitChar10_inj :
    ∀ l1 l2 : List Nat, (∀ d ∈ l1, d < 10) → (∀ d ∈ l2, d < 10) →
      l1.map digitChar10 = l2.map digitChar10 → l1 = l2 := by
  intro l1
  induction l1 with
  | nil =>
    intro l2 _ _ he
    cases l2 with
    | nil => rfl
    | cons d l2 => cases he
  | cons d1 t1 ih =>
    intro l2 hb1 hb2 he
    cases l2 with
    | nil => cases he
    | cons d2 t2 =>
      simp only [List.map_cons, List.cons.injEq] at he
      have hd := digitChar10_inj (hb1 d1 (List.mem_cons_self d1 t1))
        (hb2 d2 (List.mem_cons_self d2 t2)) he.1
      rw [hd, ih t2 (fun d hd' => hb1 d (List.mem_cons_of_mem _ hd'))
        (fun d hd' => hb2 d (List.mem_cons_of_mem _ hd')) he.2]

theorem decRepr_pos_eq (n : Nat) (hn : n ≠ 0) :
    decRepr n = String.mk (((Nat.digits 10 n).reverse).map digitChar10) := by
  unfold decRepr
  rw [if_neg hn, decDigitsAux_eq_digits n n (Nat.le_refl n)]
  rfl

theorem decRepr_inj {m n : Nat} (hm : m ≠ 0) (hn : n ≠ 0)
    (he : decRepr m = decRepr n) : m = n := by
  rw [decRepr_pos_eq m hm, decRepr_pos_eq n hn] at he
  have hdata : ((Nat.digits 10 m).reverse).map digitChar10 =
      ((Nat.digits 10 n).reverse).map digitChar10 := congrArg String.data he
  have hrev := map_digitChar10_inj _ _
    (fun d hd => Nat.digits_lt_base (by norm_num) (List.mem_reverse.mp hd))
    (fun d hd => Nat.digits_lt_base (by norm_num) (List.mem_reverse.mp hd))
    hdata
  have hdig := List.reverse_injective hrev
  calc m = Nat.ofDigits 10 (Nat.digits 10 m) := (Nat.ofDigits_digits 10 m).symm
    _ = Nat.ofDigits 10 (Nat.digits 10 n) := by rw [hdig]
    _ = n := Nat.ofDigits_digits 10 n

theorem temp_name_inj {m n : Nat} (hm : m ≠ 0) (hn : n ≠ 0)
    (he : temp_name m = temp_name n) : m = n := by
  unfold temp_name at he
  have hdata := congrArg String.data he
  simp only [String.data_append] at hdata
  have hdd : (decRepr m).data = (decRepr n).data := by simpa using hdata
  have hstr : decRepr m = decRepr n := by
    cases hm1 : decRepr m with
    | mk d1 =>
      cases hn1 : decRepr n with
      | mk d2 =>
        rw [hm1, hn1] at hdd
        exact congrArg String.mk (by simpa using hdd)
  exact decRepr_inj hm hn hstr

/-- Does a string match `^t[1-9][0-9]*$`?  (49–57 are the codes of
`'1'`–`'9'`, 48–57 those of `'0'`–`'9'`.) -/
def temp_pattern (s : String) : Bool :=
  match s.data with
  | c0 :: c :: cs =>
    (c0 == 't') && (49 ≤ c.toNat && c.toNat ≤ 57) &&
      cs.all (fun x => 48 ≤ x.toNat && x.toNat ≤ 57)
  | _ => false

theorem temp_pattern_eq (s : String) (c0 c : Char) (cs : List Char)
    (hd : s.data = c0 :: c :: cs) :
    temp_pattern s = ((c0 == 't') && (49 ≤ c.toNat && c.toNat ≤ 57) &&
      cs.all (fun x => 48 ≤ x.toNat && x.toNat ≤ 57)) := by
  unfold temp_pattern
  rw [hd]

theorem temp_name_data (n : Nat) (hn : n ≠ 0) :
    (temp_name n).data =
      't' :: ((Nat.digits 10 n).reverse.map digitChar10) := by
  unfold temp_name
  rw [decRepr_pos_eq n hn]
  rfl

theorem digitChar10_bounds :
    ∀ d : Fin 10, 48 ≤ (digitChar10 d.val).toNat ∧
      (digitChar10 d.val).toNat ≤ 57 := by decide

theorem digitChar10_bounds1 :
    ∀ d : Fin 10, d.val ≠ 0 → 49 ≤ (digitChar10 d.val).toNat := by decide

theorem temp_pattern_temp_name (n : Nat) (hn : n ≠ 0) :
    temp_pattern (temp_name n) = true := by
  have hne : Nat.digits 10 n ≠ [] := Nat.digits_ne_nil_iff_ne_zero.mpr hn
  have hlast0 := Nat.getLast_digit_ne_zero 10 hn
  have hlastlt : (Nat.digits 10 n).getLast hne < 10 :=
    Nat.digits_lt_base (by norm_num) (List.getLast_mem hne)
  have hrev : (Nat.digits 10 n).reverse =
      (Nat.digits 10 n).getLast hne ::
        (Nat.digits 10 n).dropLast.reverse := by
    conv_lhs => rw [← List.dropLast_append_getLast hne]
    rw [List.reverse_append]
    rfl
  have hdata : (temp_name n).data = 't' ::
      digitChar10 ((Nat.digits 10 n).getLast hne) ::
      ((Nat.digits 10 n).dropLast.reverse.map digitChar10) := by
    rw [temp_name_data n hn, hrev]
    rfl
  rw [temp_pattern_eq _ _ _ _ hdata]
  simp only [Bool.and_eq_true, beq_self_eq_true, true_and, decide_eq_true_eq,
    List.all_eq_true]
  refine ⟨⟨digitChar10_bounds1 ⟨_, hlastlt⟩ hlast0,
    (digitChar10_bounds ⟨_, hlastlt⟩).2⟩, ?_⟩
  intro y hy
  obtain ⟨d, hd, rfl⟩ := List.mem_map.mp hy
  have hdmem : d ∈ Nat.digits 10 n :=
    (List.dropLast_sublist _).subset (List.mem_reverse.mp hd)
  have hdlt : d < 10 := Nat.digits_lt_base (by norm_num) hdmem
  exact ⟨by simpa using (digitChar10_bounds ⟨d, hdlt⟩).1,
    by simpa using (digitChar10_bounds ⟨d, hdlt⟩).2⟩

theorem temp_pattern_length {s : String} (hp : temp_pattern s = true) :
    2 ≤ s.length := by
  unfold temp_pattern at hp
  split at hp
  · rename_i c0 c cs hdata
    have hl : s.length = s.data.length := rfl
    rw [hl, hdata]
    simp
  · cases hp

/-- The list of temporaries handed out by the first `n` calls of
`get_temp_name` after a reset, newest first. -/
def genList : Nat → List String
  | 0 => []
  | n + 1 => temp_name (n + 1) :: genList n

theorem genList_mem :
    ∀ n s, s ∈ genList n → ∃ k, k ≠ 0 ∧ k ≤ n ∧ s = temp_name k := by
  intro n
  induction n with
  | zero => intro s hs; cases hs
  | succ n ih =>
    intro s hs
    rcases List.mem_cons.mp hs with rfl | hs'
    · exact ⟨n + 1, Nat.succ_ne_zero n, Nat.le_refl _, rfl⟩
    · obtain ⟨k, hk0, hkn, hsk⟩ := ih s hs'
      exact ⟨k, hk0, Nat.le_succ_of_le hkn, hsk⟩

theorem genList_pairwise : ∀ n, (genList n).Pairwise (fun a b => a ≠ b) := by
  intro n
  induction n with
  | zero => exact List.Pairwise.nil
  | succ n ih =>
    refine List.Pairwise.cons ?_ ih
    intro b hb heq
    obtain ⟨k, hk0, hkn, hsk⟩ := genList_mem n b hb
    have := temp_name_inj (Nat.succ_ne_zero n) hk0 (heq.trans hsk)
    omega

theorem genList_getLast? :
    ∀ n, n ≠ 0 → (genList n).getLast? = some (temp_name 1) := by
  intro n
  induction n with
  | zero => intro h0; exact absurd rfl h0
  | succ n ih =>
    intro _
    match n, ih with
    | 0, _ => rfl
    | n + 1, ih =>
      show (temp_name (n + 2) :: temp_name (n + 1) ::
        genList n).getLast? = _
      rw [List.getLast?_cons_cons]
      exact ih (Nat.succ_ne_zero n)

/-- The state invariant: the ghost log is exactly the names of the
counter's first `tempNum` values. -/
def StInv (st : St) : Prop := st.generated = genList st.tempNum

theorem get_temp_name_inv {st : St} (hi : StInv st) :
    StInv (get_temp_name st).2 := by
  simp only [StInv, get_temp_name, genList]
  rw [hi]

theorem goto_temp_var_inv {F : Nat} {h : Heap} {r : Ref} {p : Pair}
    {st : St} {h' : Heap} {p' : Pair} {st' : St} {v : String}
    (heq : goto_temp_var F h r p st = some (h', p', st', v))
    (hi : StInv st) : StInv st' := by
  unfold goto_temp_var at heq
  repeat' split at heq
  all_goals
    first
      | (cases heq <;> first
          | exact hi
          | exact get_temp_name_inv hi)
      | (rw [eq_comm] at heq
         simp only [] at heq
         split at heq
         · cases heq
         · cases heq <;> first
            | exact hi
            | exact get_temp_name_inv hi)

theorem algo_2_1_inv {F : Nat} {h : Heap} {r : Ref} {p : Pair} {st : St}
    {h1 : Heap} {p1 : Pair} {st1 : St}
    (heq : algo_2_1__goto_in_parent_block__before F h r p st =
      some (h1, p1, st1)) (hi : StInv st) : StInv st1 := by
  unfold algo_2_1__goto_in_parent_block__before at heq
  cases hgtv : goto_temp_var F h r p st with
  | none => simp only [hgtv] at heq; cases heq
  | some x =>
    obtain ⟨h1', p1', st1', temp⟩ := x
    simp only [hgtv] at heq
    repeat' split at heq
    all_goals
      first
        | (cases heq <;> exact goto_temp_var_inv hgtv hi)
        | (rw [eq_comm] at heq
           simp only [] at heq
           repeat' split at heq
           all_goals
             cases heq <;> exact goto_temp_var_inv hgtv hi)

theorem algo_2_2_inv {F : Nat} {h : Heap} {r : Ref} {p : Pair} {st : St}
    {h1 : Heap} {p1 : Pair} {st1 : St}
    (heq : algo_2_2__goto_in_parent_block__after F h r p st =
      some (h1, p1, st1)) (hi : StInv st) : StInv st1 := by
  unfold algo_2_2__goto_in_parent_block__after at heq
  cases hgtv : goto_temp_var F h r p st with
  | none => simp only [hgtv] at heq; cases heq
  | some x =>
    obtain ⟨h1', p1', st1', temp⟩ := x
    simp only [hgtv] at heq
    repeat' split at heq
    all_goals
      first
        | (cases heq <;> exact goto_temp_var_inv hgtv hi)
        | (rw [eq_comm] at heq
           simp only [] at heq
           repeat' split at heq
           all_goals
             cases heq <;> exact goto_temp_var_inv hgtv hi)

theorem algo_3_inv {F : Nat} {h : Heap} {r : Ref} {p : Pair} {st : St}
    {b : Bool} {h1 : Heap} {p1 : Pair} {st1 : St}
    (heq : algo_3 F h r p st b = some (h1, p1, st1)) (hi : StInv st) :
    StInv st1 := by
  unfold algo_3 at heq
  cases hgtv : goto_temp_var F h r p st with
  | none => simp only [hgtv] at heq; cases heq
  | some x =>
    obtain ⟨h1', p1', st1', temp⟩ := x
    simp only [hgtv] at heq
    repeat' split at heq
    all_goals
      cases heq <;> exact goto_temp_var_inv hgtv hi

theorem algo_4_inv {F : Nat} {h : Heap} {r : Ref} {p : Pair} {st : St}
    {b : Bool} {h1 : Heap} {p1 : Pair} {st1 : St}
    (heq : algo_4 F h r p st b = some (h1, p1, st1)) (hi : StInv st) :
    StInv st1 := by
  unfold algo_4 at heq
  cases hgtv : goto_temp_var F h r p st with
  | none => simp only [hgtv] at heq; cases heq
  | some x =>
    obtain ⟨h1', p1', st1', temp⟩ := x
    simp only [hgtv] at heq
    repeat' split at heq
    all_goals
      cases heq <;> exact goto_temp_var_inv hgtv hi

theorem algo_3_1_inv {F : Nat} {h : Heap} {r : Ref} {p : Pair} {st : St}
    {h1 : Heap} {st1 : St}
    (heq : algo_3_1__label_in_parent_block__before F h r p st =
      some (h1, st1)) (hi : StInv st) : StInv st1 := by
  unfold algo_3_1__label_in_parent_block__before at heq
  cases ha3 : algo_3 F h r p st false with
  | none => simp only [ha3] at heq; cases heq
  | some x =>
    obtain ⟨h1', p1', st1'⟩ := x
    simp only [ha3] at heq
    repeat' split at heq
    all_goals
      cases heq <;> exact algo_3_inv ha3 hi

theorem algo_3_2_inv {F : Nat} {h : Heap} {r : Ref} {p : Pair} {st : St}
    {h1 : Heap} {p1 : Pair} {st1 : St}
    (heq : algo_3_2__label_in_parent_block__after F h r p st =
      some (h1, p1, st1)) (hi : StInv st) : StInv st1 := by
  unfold algo_3_2__label_in_parent_block__after at heq
  cases ha3 : algo_3 F h r p st true with
  | none => simp only [ha3] at heq; cases heq
  | some x =>
    obtain ⟨h1', p1', st1'⟩ := x
    simp only [ha3] at heq
    repeat' split at heq
    all_goals
      first
        | (cases heq <;> exact algo_3_inv ha3 hi)
        | (rw [eq_comm] at heq
           simp only [] at heq
           repeat' split at heq
           all_goals
             cases heq <;> exact algo_3_inv ha3 hi)

theorem algo_4_1_inv {F : Nat} {h : Heap} {r : Ref} {p : Pair} {st : St}
    {h1 : Heap} {p1 : Pair} {st1 : St}
    (heq : algo_4_1__label_in_disjunct__before F h r p st =
      some (h1, p1, st1)) (hi : StInv st) : StInv st1 := by
  unfold algo_4_1__label_in_disjunct__before at heq
  cases ha4 : algo_4 F h r p st false with
  | none => simp only [ha4] at heq; cases heq
  | some x =>
    obtain ⟨h1', p1', st1'⟩ := x
    simp only [ha4] at heq
    exact algo_2_1_inv heq (algo_4_inv ha4 hi)

theorem algo_4_2_inv {F : Nat} {h : Heap} {r : Ref} {p : Pair} {st : St}
    {h1 : Heap} {p1 : Pair} {st1 : St}
    (heq : algo_4_2__label_in_disjunct__after F h r p st =
      some (h1, p1, st1)) (hi : StInv st) : StInv st1 := by
  unfold algo_4_2__label_in_disjunct__after at heq
  cases ha4 : algo_4 F h r p st true with
  | none => simp only [ha4] at heq; cases heq
  | some x =>
    obtain ⟨h1', p1', st1'⟩ := x
    simp only [ha4] at heq
    exact algo_2_2_inv heq (algo_4_inv ha4 hi)

theorem dispatch_case_inv {F : Nat} {c : String} {h : Heap} {r : Ref}
    {p : Pair} {st : St} {h1 : Heap} {st1 : St}
    (heq : dispatch_case F c h r p st = some (h1, st1)) (hi : StInv st) :
    StInv st1 := by
  unfold dispatch_case at heq
  repeat' split at heq
  all_goals
    first
      | cases heq
      | (obtain ⟨a, ha, hab⟩ := Option.map_eq_some'.mp heq
         cases hab
         exact hi)
      | (obtain ⟨a, ha, hab⟩ := Option.map_eq_some'.mp heq
         obtain ⟨a1, a2, a3⟩ := a
         cases hab
         first
           | exact algo_2_1_inv ha hi
           | exact algo_2_2_inv ha hi
           | exact algo_3_2_inv ha hi
           | exact algo_4_1_inv ha hi
           | exact algo_4_2_inv ha hi)
      | exact algo_3_1_inv heq hi

theorem elim_loop_inv (F : Nat) :
    ∀ k h ctxs st h1 st1, elim_loop F k h ctxs st = some (h1, st1) →
      StInv st → StInv st1 := by
  intro k
  induction k with
  | zero => intro h ctxs st h1 st1 heq; cases heq
  | succ k ih =>
    intro h ctxs st h1 st1 heq hi
    unfold elim_loop at heq
    cases hscan : scan_contexts F h ctxs with
    | none => simp only [hscan] at heq; cases heq
    | some o =>
      cases o with
      | none =>
        simp only [hscan] at heq
        cases heq
        exact hi
      | some y =>
        obtain ⟨r, h', p⟩ := y
        simp only [hscan] at heq
        cases hdc : dispatch_case F (classify p.gotoPath p.labelPath)
            h' r p st with
        | none => simp only [hdc] at heq; cases heq
        | some z =>
          obtain ⟨h2, st2⟩ := z
          simp only [hdc] at heq
          exact ih _ _ _ _ _ heq (dispatch_case_inv hdc hi)

/-- C9 (P4): every temporary name handed out during one call of
`eliminate_goto` is recorded in the ghost log `generated`; the log is
exactly the names `t1, t2, …` of the counter values (newest first, so
it restarts at `t1` on every call — the incoming state `st0` is
discarded), every name matches `^t[1-9][0-9]*$` (here: the decidable
check `temp_pattern`), the names are pairwise distinct, and none of
them collides with a user variable (a single lowered letter, hence a
string of length 1). -/
theorem eliminate_goto_temp_freshness (F : Nat) (h : Heap)
    (ctxs : List (String × Ref)) (st0 : St) (h1 : Heap) (st1 : St)
    (heq : eliminate_goto F h ctxs st0 = some (h1, st1)) :
    st1.generated = genList st1.tempNum ∧
    (∀ s ∈ st1.generated, temp_pattern s = true) ∧
    st1.generated.Pairwise (fun a b => a ≠ b) ∧
    (∀ s ∈ st1.generated, ∀ v : String, v.length = 1 → s ≠ v) ∧
    (st1.generated ≠ [] →
      st1.generated.getLast? = some (temp_name 1)) := by
  have heq' : elim_loop F F h ctxs ⟨0, []⟩ = some (h1, st1) := heq
  have hgen : st1.generated = genList st1.tempNum :=
    elim_loop_inv F F h ctxs ⟨0, []⟩ h1 st1 heq' rfl
  have hpat : ∀ s ∈ st1.generated, temp_pattern s = true := by
    intro s hs
    rw [hgen] at hs
    obtain ⟨k, hk0, _, rfl⟩ := genList_mem _ _ hs
    exact temp_pattern_temp_name k hk0
  refine ⟨hgen, hpat, ?_, ?_, ?_⟩
  · rw [hgen]
    exact genList_pairwise _
  · intro s hs v hv1 hsv
    have h2 := temp_pattern_length (hpat s hs)
    rw [hsv] at h2
    omega
  · intro hne
    rw [hgen] at hne ⊢
    refine genList_getLast? _ ?_
    intro h0
    rw [h0] at hne
    exact hne rfl

/-- A context whose goto/label pair classifies as 3.1: the goto sits in
an inner `If`, the label one block up. -/
def main31 : List Stmt :=
  [Stmt.ifS (some 1)
    [Cond.rel (Expr.varE "b") "=" (Expr.num 0) Link.initial] 1,
   Stmt.letS (some 8) (Expr.varE "a") (Expr.num 7)]

def inner31 : List Stmt :=
  [Stmt.letS (some 5) (Expr.varE "b") (Expr.num 5),
   Stmt.ifS none [Cond.rel (Expr.varE "b") ">" (Expr.num 0) Link.initial] 2,
   Stmt.printS (some 7) [Expr.strE "x"]]

def h31 : Heap := ⟨[main31, inner31, [Stmt.gotoS none 8]]⟩

/-- The heap the driver produces from `h31`: one temporary `t1` was
introduced. -/
def h31r : Heap :=
  ⟨[[Stmt.ifS (some 1)
      [Cond.rel (Expr.varE "b") "=" (Expr.num 0) Link.initial] 1,
     Stmt.letS (some 8) (Expr.varE "a") (Expr.num 7)],
    [Stmt.letS (some 5) (Expr.varE "b") (Expr.num 5),
     Stmt.letS none (Expr.varE "t1")
       (Expr.boolean [Cond.rel (Expr.varE "b") ">" (Expr.num 0) Link.initial]),
     Stmt.ifS none [Cond.notVarC "t1" Link.initial] 3],
    [Stmt.gotoS none 8],
    [Stmt.printS (some 7) [Expr.strE "x"]]]⟩

/-- C9 witness: the 3.1 program generates exactly `["t1"]`, which
matches the pattern, is trivially pairwise distinct, and ends (= began)
at `t1`. -/
theorem eliminate_goto_temp_freshness_witness :
    (∀ s ∈ (["t1"] : List String), temp_pattern s = true) ∧
    (["t1"] : List String).Pairwise (fun a b => a ≠ b) ∧
    (["t1"] : List String).getLast? = some (temp_name 1) := by
  have hfr := eliminate_goto_temp_freshness 20 h31 [("main", 0)]
    ⟨7, ["x"]⟩ h31r ⟨1, ["t1"]⟩ rfl
  exact ⟨hfr.2.1, hfr.2.2.1, hfr.2.2.2.2 (by simp)⟩


/-! ## C10: the lexer silently discards a single unknown character -/

theorem append_symbol_ok (lx : String) (line col : Nat)
    (hm : lx ∈ symList) : ∃ tk, append_symbol lx line col = Except.ok tk := by
  simp only [symList, arithmeticOps, relationOps, List.cons_append,
    List.nil_append, List.mem_cons, List.not_mem_nil, or_false] at hm
  rcases hm with rfl | rfl | rfl | rfl | rfl | rfl | rfl | rfl | rfl | rfl |
    rfl | rfl | rfl
  all_goals exact ⟨_, rfl⟩

theorem lex_complete_err {rest : List Char} {lx1 : String}
    {tokens : List Token} {ic : Bool} {line1 col1 : Nat} {e : LexErr}
    (heq : lex_complete rest lx1 tokens ic line1 col1 = .err e) :
    e.kind = .unknownToken ∧ 1 < e.lexeme.length := by
  unfold lex_complete at heq
  repeat' split at heq
  all_goals
    first
      | (cases heq <;> exact ⟨rfl, by assumption⟩)
      | cases heq

theorem lex_lookahead_err {n : Char} {rest2 : List Char} {lx1 : String}
    {tokens : List Token} {ic : Bool} {line1 col1 : Nat} {e : LexErr}
    (heq : lex_lookahead n rest2 lx1 tokens ic line1 col1 = .err e) :
    e.kind = .unknownToken ∧ 1 < e.lexeme.length := by
  unfold lex_lookahead at heq
  repeat' split at heq
  all_goals
    first
      | exact lex_complete_err heq
      | (cases heq <;>
          (rename_i x hae
           obtain ⟨tk, htk⟩ := append_symbol_ok _ _ _ (by assumption)
           rw [htk] at hae
           cases hae))
      | cases heq

theorem lex_last_err {lx1 : String} {tokens : List Token}
    {line1 col1 : Nat} {e : LexErr}
    (heq : lex_last lx1 tokens line1 col1 = .err e) :
    e.kind = .unknownToken ∧ 1 < e.lexeme.length := by
  unfold lex_last at heq
  repeat' split at heq
  all_goals
    first
      | (cases heq <;> exact ⟨rfl, by assumption⟩)
      | (cases heq <;>
          (rename_i x hae
           obtain ⟨tk, htk⟩ := append_symbol_ok _ _ _ (by assumption)
           rw [htk] at hae
           cases hae))
      | cases heq

theorem lex_step_err {c : Char} {rest : List Char} {lx : String}
    {tokens : List Token} {ic : Bool} {line col : Nat} {e : LexErr}
    (heq : lex_step c rest lx tokens ic line col = .err e) :
    e.kind = .unknownToken ∧ 1 < e.lexeme.length := by
  unfold lex_step at heq
  repeat' split at heq
  all_goals
    first
      | exact lex_lookahead_err heq
      | exact lex_last_err heq
      | cases heq

theorem get_tokens_go_error :
    ∀ F cs lx tokens ic line col e,
      get_tokens_go F cs lx tokens ic line col = .error e →
      e.kind = .unknownToken ∧ 1 < e.lexeme.length := by
  intro F
  induction F with
  | zero =>
    intro cs lx tokens ic line col e heq
    cases cs with
    | nil => cases heq
    | cons c rest => cases heq
  | succ F ih =>
    intro cs lx tokens ic line col e heq
    cases cs with
    | nil => cases heq
    | cons c rest =>
      unfold get_tokens_go at heq
      cases hstep : lex_step c rest lx tokens ic line col with
      | err e1 =>
        simp only [hstep] at heq
        cases heq
        exact lex_step_err hstep
      | done t => simp only [hstep] at heq; cases heq
      | next rest1 lx1 tokens1 ic1 line1 col1 =>
        simp only [hstep] at heq
        exact ih _ _ _ _ _ _ _ heq

/-- C10: a lone unrecognised character delimited by whitespace is
silently discarded: `get_tokens` on the single lowercase letter `a`
raises nothing and emits no token.  And whenever `get_tokens` does
raise a `LexError`, it is the `unknown token` error and the offending
lexeme is longer than one character — the classification chain of
`__complete_lexeme` falls through to a silent drop for a
single-character unknown, and the `unknown symbol` raise in
`__append_symbol` is unreachable because it is only called on members
of `self._sym`. -/
theorem get_tokens_single_unknown_discarded :
    get_tokens ['a'] = .ok [] ∧
    (∀ cs e, get_tokens cs = .error e →
      e.kind = .unknownToken ∧ 1 < e.lexeme.length) :=
  ⟨rfl, fun cs e heq => get_tokens_go_error _ _ _ _ _ _ _ _ heq⟩

/-- C10 witness: `ab` is a two-character unknown lexeme and does raise,
with the guard `1 < len(lexeme)` satisfied. -/
theorem get_tokens_single_unknown_discarded_witness :
    (⟨.unknownToken, "ab", 1, 1⟩ : LexErr).kind = .unknownToken ∧
    1 < (⟨.unknownToken, "ab", 1, 1⟩ : LexErr).lexeme.length :=
  get_tokens_single_unknown_discarded.2 ['a', 'b']
    ⟨.unknownToken, "ab", 1, 1⟩ rfl
